import Mathlib

/-!
Verification development for the scheme-manager trust and synchronization
engine of the irmago configuration library.

Strings are embedded as lists of characters (`Str`), byte sequences as lists
of natural numbers (`Bytes`, each element < 256 where it matters).  External
collaborators (SHA-256, PEM decoding, PKIX key parsing, ECDSA verification,
XML unmarshalling, the gabi public-key parser, the HTTP transport and the
file system) are modelled as explicit parameters, matching the spec's
treatment of them as interfaces; everything else is translated from the Go
sources (`identifiers.go`, `irmaconfig.go`).
-/

namespace Irmago

abbrev Str := List Char
abbrev Bytes := List Nat

/-- Convenience: a Lean string literal as a `Str`. -/
def str (s : String) : Str := s.data

/-! ### Association lists

Go maps are embedded as association lists with first-match lookup and
replace-or-append insertion (so a map never holds two live entries for one
key when built through `aupdate`). -/

def alookup {α β : Type} [DecidableEq α] : List (α × β) → α → Option β
  | [], _ => none
  | (k, v) :: rest, key => if k = key then some v else alookup rest key

def aupdate {α β : Type} [DecidableEq α] : List (α × β) → α → β → List (α × β)
  | [], key, v => [(key, v)]
  | (k, w) :: rest, key, v =>
    if k = key then (key, v) :: rest else (k, w) :: aupdate rest key v

def aremove {α β : Type} [DecidableEq α] (l : List (α × β)) (key : α) : List (α × β) :=
  l.filter (fun e => e.1 ≠ key)

/-! ### Hex encoding (encoding/hex)

`hexEncode` mirrors `hex.EncodeToString` (lowercase digits); `hexDecode`
mirrors `hex.DecodeString` (accepts both cases, fails on an odd-length
string or a non-hex character). -/

def natToHexDigit (n : Nat) : Char :=
  if n < 10 then Char.ofNat (Char.toNat '0' + n) else Char.ofNat (Char.toNat 'a' + n - 10)

def hexDigitToNat (c : Char) : Option Nat :=
  if '0' ≤ c ∧ c ≤ '9' then some (c.toNat - Char.toNat '0')
  else if 'a' ≤ c ∧ c ≤ 'f' then some (c.toNat - Char.toNat 'a' + 10)
  else if 'A' ≤ c ∧ c ≤ 'F' then some (c.toNat - Char.toNat 'A' + 10)
  else none

def hexEncode : Bytes → Str
  | [] => []
  | b :: rest => natToHexDigit (b / 16) :: natToHexDigit (b % 16) :: hexEncode rest

def hexDecode : Str → Except String Bytes
  | [] => .ok []
  | [_] => .error "encoding/hex: odd length hex string"
  | c1 :: c2 :: rest =>
    match hexDigitToNat c1, hexDigitToNat c2 with
    | some hi, some lo =>
      match hexDecode rest with
      | .ok bs => .ok ((16 * hi + lo) :: bs)
      | .error e => .error e
    | _, _ => .error "encoding/hex: invalid byte"

/-! ### Splitting (strings.Split on a one-character separator) -/

def splitOnChar (sep : Char) : Str → List Str
  | [] => [[]]
  | c :: rest =>
    if c = sep then [] :: splitOnChar sep rest
    else
      match splitOnChar sep rest with
      | [] => [[c]]
      | s :: ss => (c :: s) :: ss

/-! ### Byte-wise lexicographic order on strings (sort.Strings) -/

def lexLt : Str → Str → Bool
  | [], [] => false
  | [], _ :: _ => true
  | _ :: _, [] => false
  | a :: as, b :: bs =>
    if a.toNat < b.toNat then true
    else if b.toNat < a.toNat then false
    else lexLt as bs

def sortInsert (x : Str × Bytes) : List (Str × Bytes) → List (Str × Bytes)
  | [] => [x]
  | y :: ys => if lexLt y.1 x.1 then y :: sortInsert x ys else x :: y :: ys

/-- Stable insertion sort by path, byte-wise ascending; models `sort.Strings`
over the index's key set. -/
def sortIndex (l : List (Str × Bytes)) : List (Str × Bytes) :=
  l.foldr sortInsert []

/-! ### SchemeManagerIndex (irmaconfig.go)

`SchemeManagerIndex` maps the relative path of each authenticated file to
its SHA-256 hash. -/

abbrev ConfigurationFileHash := Bytes
abbrev SchemeManagerIndex := List (Str × ConfigurationFileHash)

/-- One line of the serialized index: `<hex-hash> <path>\n`. -/
def indexLine (e : Str × Bytes) : Str :=
  hexEncode e.2 ++ ' ' :: e.1 ++ ['\n']

/-- Concatenation of the serialized lines of the given entries, in order. -/
def indexLines (l : List (Str × Bytes)) : Str :=
  l.foldr (fun e acc => indexLine e ++ acc) []

/-- `SchemeManagerIndex.String`: paths sorted ascending, one
`<hex-hash> <path>` line per entry. -/
def indexToString (i : SchemeManagerIndex) : Str :=
  indexLines (sortIndex i)

/-- Loop of `SchemeManagerIndex.FromString`: like the Go method it populates
the map line by line; on a malformed line it stops and reports the error,
returning the entries parsed so far (the Go method mutates the receiver in
place, so those survive). -/
def fromStringLoop : List Str → Nat → SchemeManagerIndex →
    SchemeManagerIndex × Option String
  | [], _, acc => (acc, none)
  | line :: rest, j, acc =>
    if line = [] then fromStringLoop rest (j + 1) acc
    else
      match splitOnChar ' ' line with
      | [p0, p1] =>
        match hexDecode p0 with
        | .error e => (acc, some e)
        | .ok hash => fromStringLoop rest (j + 1) (aupdate acc p1 hash)
      | _ =>
        (acc, some ("Scheme manager index line " ++ toString j ++
          " has incorrect amount of parts"))

/-- `SchemeManagerIndex.FromString`. -/
def indexFromString (s : Str) : SchemeManagerIndex × Option String :=
  fromStringLoop (splitOnChar '\n' s) 0 []

/-! ### Identifiers (identifiers.go)

`objectIdentifier.Parent` slices the string up to the last `/`; when the
string holds no `/`, `strings.LastIndex` yields `-1` and the Go slice
expression `str[:-1]` raises a run-time slice-bounds panic.  Panics are made
explicit through `GoPanic`. -/

inductive GoPanic
  | nilDeref
  | indexRange
  | sliceRange
deriving DecidableEq

def goPanicMsg : GoPanic → String
  | .nilDeref => "runtime error: invalid memory address or nil pointer dereference"
  | .indexRange => "runtime error: index out of range"
  | .sliceRange => "runtime error: slice bounds out of range"

/-- Index of the last occurrence of `ch` in `s` (`strings.LastIndex` for a
one-character needle, with `none` for Go's `-1`). -/
def strLastIdx (ch : Char) : Str → Option Nat
  | [] => none
  | c :: rest =>
    match strLastIdx ch rest with
    | some i => some (i + 1)
    | none => if c = ch then some 0 else none

/-- `objectIdentifier.Parent`: `str[:strings.LastIndex(str, "/")]`.  With no
separator the Go code panics with a slice-bounds error. -/
def objectIdentifierParent (s : Str) : Except GoPanic Str :=
  match strLastIdx '/' s with
  | none => .error .sliceRange
  | some i => .ok (s.take i)

/-- `objectIdentifier.Name`: `str[strings.LastIndex(str, "/")+1:]` (total:
with no separator this is the whole string). -/
def objectIdentifierName (s : Str) : Str :=
  match strLastIdx '/' s with
  | none => s
  | some i => s.drop (i + 1)

structure SchemeManagerIdentifier where
  oid : Str
deriving DecidableEq

structure IssuerIdentifier where
  oid : Str
deriving DecidableEq

structure CredentialTypeIdentifier where
  oid : Str
deriving DecidableEq

def NewSchemeManagerIdentifier (s : Str) : SchemeManagerIdentifier := ⟨s⟩

def NewIssuerIdentifier (s : Str) : IssuerIdentifier := ⟨s⟩

def NewCredentialTypeIdentifier (s : Str) : CredentialTypeIdentifier := ⟨s⟩

/-- `IssuerIdentifier.SchemeManagerIdentifier`. -/
def IssuerIdentifier.schemeManagerIdentifier (id : IssuerIdentifier) :
    Except GoPanic SchemeManagerIdentifier :=
  (objectIdentifierParent id.oid).map NewSchemeManagerIdentifier

/-- `CredentialTypeIdentifier.IssuerIdentifier`. -/
def CredentialTypeIdentifier.issuerIdentifier (id : CredentialTypeIdentifier) :
    Except GoPanic IssuerIdentifier :=
  (objectIdentifierParent id.oid).map NewIssuerIdentifier

/-- The derivation chain of claim C9: from a credential-type identifier to
its issuer's identifier and on to the scheme manager's identifier. -/
def credentialTypeSchemeManager (id : CredentialTypeIdentifier) :
    Except GoPanic SchemeManagerIdentifier :=
  (id.issuerIdentifier).bind IssuerIdentifier.schemeManagerIdentifier

/-! ### ASN.1 DER parsing (encoding/asn1, as used for `[]*big.Int`)

`asn1.Unmarshal(sig, &ints)` parses one universal SEQUENCE whose elements
are all INTEGERs, and returns any bytes after the sequence as `rest`
without error.  The Go parser's size cap on long-form lengths (2^23) is
kept; its base-128 high-tag form is parsed but never matches the types used
here. -/

/-- Base-128 (high-tag-number) continuation bytes. -/
def parseBase128 : Bytes → Nat → Except String (Nat × Bytes)
  | [], _ => .error "asn1: syntax error: truncated tag or length"
  | b :: rest, acc =>
    if b < 128 then .ok (acc * 128 + b, rest)
    else parseBase128 rest (acc * 128 + (b - 128))

def parseLenBytes : Nat → Nat → Bytes → Except String (Nat × Bytes)
  | 0, acc, rest => .ok (acc, rest)
  | _ + 1, _, [] => .error "asn1: syntax error: truncated tag or length"
  | n + 1, acc, b :: rest =>
    if acc ≥ 2 ^ 23 then .error "asn1: structure error: length too large"
    else parseLenBytes n (acc * 256 + b) rest

def parseLen : Bytes → Except String (Nat × Bytes)
  | [] => .error "asn1: syntax error: truncated tag or length"
  | b :: rest =>
    if b < 128 then .ok (b, rest)
    else
      let numBytes := b - 128
      if numBytes = 0 then
        .error "asn1: syntax error: indefinite length found (not DER)"
      else parseLenBytes numBytes 0 rest

/-- Parse one identifier octet plus length: returns
(class, tag, isCompound, length, rest). -/
def parseTagAndLength (bts : Bytes) :
    Except String (Nat × Nat × Bool × Nat × Bytes) :=
  match bts with
  | [] => .error "asn1: syntax error: truncated tag or length"
  | b :: rest =>
    let cls := b / 64
    let compound := 32 ≤ b % 64
    if b % 32 = 31 then
      match parseBase128 rest 0 with
      | .error e => .error e
      | .ok (tag, rest2) =>
        match parseLen rest2 with
        | .error e => .error e
        | .ok (len, rest3) => .ok (cls, tag, compound, len, rest3)
    else
      match parseLen rest with
      | .error e => .error e
      | .ok (len, rest2) => .ok (cls, b % 32, compound, len, rest2)

/-- `checkInteger`: an INTEGER body must be non-empty and minimally
encoded. -/
def checkInteger (d : Bytes) : Option String :=
  match d with
  | [] => some "asn1: structure error: empty integer"
  | [_] => none
  | d0 :: d1 :: _ =>
    if (d0 = 0 ∧ d1 < 128) ∨ (d0 = 255 ∧ 128 ≤ d1) then
      some "asn1: structure error: integer not minimally-encoded"
    else none

/-- Big-endian two's-complement signed integer from a DER INTEGER body. -/
def intOfBytes (d : Bytes) : Int :=
  let u : Nat := d.foldl (fun acc b => acc * 256 + b) 0
  match d with
  | [] => 0
  | d0 :: _ => if 128 ≤ d0 then (u : Int) - (2 : Int) ^ (8 * d.length) else (u : Int)

/-- Elements of a SEQUENCE OF INTEGER.  The fuel starts at one more than the
content length; every element consumes at least two bytes, so the fuel never
runs out on the lists this is applied to. -/
def parseIntElems : Nat → Bytes → Except String (List Int)
  | _, [] => .ok []
  | 0, _ :: _ => .error "asn1: internal: out of fuel"
  | fuel + 1, bts =>
    match parseTagAndLength bts with
    | .error e => .error e
    | .ok (cls, tag, compound, len, rest) =>
      if cls ≠ 0 ∨ tag ≠ 2 ∨ compound then
        .error "asn1: structure error: tags don't match"
      else if rest.length < len then
        .error "asn1: syntax error: data truncated"
      else
        let d := rest.take len
        match checkInteger d with
        | some e => .error e
        | none =>
          match parseIntElems fuel (rest.drop len) with
          | .error e => .error e
          | .ok ints => .ok (intOfBytes d :: ints)

/-- `asn1.Unmarshal` into `[]*big.Int`: a universal, compound SEQUENCE of
INTEGERs; bytes after the sequence are returned as trailing rest with no
error, exactly as the Go function does. -/
def asn1UnmarshalBigInts (b : Bytes) : Except String (List Int × Bytes) :=
  match parseTagAndLength b with
  | .error e => .error e
  | .ok (cls, tag, compound, len, rest) =>
    if cls ≠ 0 ∨ tag ≠ 16 ∨ ¬compound then
      .error "asn1: structure error: tags don't match"
    else if rest.length < len then
      .error "asn1: syntax error: data truncated"
    else
      match parseIntElems (len + 1) (rest.take len) with
      | .error e => .error e
      | .ok ints => .ok (ints, rest.drop len)

/-! ### Cryptographic collaborators and `VerifySignature` (irmaconfig.go)

SHA-256, `pem.Decode`, `x509.ParsePKIXPublicKey` and `ecdsa.Verify` are the
external primitives of the spec; they are passed in as a `Crypto` record.
`pem.Decode` returning no block makes the subsequent `pkblk.Bytes` a nil
dereference; a successfully parsed signature with fewer than two integers
makes `ints[0]`/`ints[1]` an index-range panic.  Both panics are caught by
the function's `defer`/`recover` wrapper and turned into an ordinary
`(false, error)` result. -/

structure PemBlock where
  bytes : Bytes
deriving DecidableEq

structure EcdsaPublicKey where
  keyId : Nat
deriving DecidableEq

inductive PKIXKey
  | ecdsa (pk : EcdsaPublicKey)
  | other
deriving DecidableEq

structure Crypto where
  sha256 : Bytes → Bytes
  pemDecode : Bytes → Option PemBlock
  parsePKIXPublicKey : Bytes → Except String PKIXKey
  ecdsaVerify : EcdsaPublicKey → Bytes → Int → Int → Bool

/-- The three on-disk inputs of `VerifySignature`: the bytes of
`<manager>/index`, `<manager>/index.sig` and `<manager>/pk.pem`
(`none` = the file is missing). -/
structure SigFiles where
  index : Option Bytes
  indexSig : Option Bytes
  pkPem : Option Bytes

/-- The body of `Configuration.VerifySignature`, carried out under the
recover wrapper: every Go panic raised while handling the untrusted key and
signature material surfaces as an explicit `GoPanic`. -/
def VerifySignatureBody (c : Crypto) (f : SigFiles) :
    Except GoPanic (Bool × Option String) :=
  match f.index, f.indexSig, f.pkPem with
  | some indexbts, some sigbts, some pkbts =>
    let indexhash := c.sha256 indexbts
    match c.pemDecode pkbts with
    | none => .error .nilDeref
    | some pkblk =>
      match c.parsePKIXPublicKey pkblk.bytes with
      | .error e => .ok (false, some e)
      | .ok .other => .ok (false, some "Invalid scheme manager public key")
      | .ok (.ecdsa pk) =>
        let ints : List Int :=
          match asn1UnmarshalBigInts sigbts with
          | .error _ => []
          | .ok (l, _) => l
        match ints with
        | r :: s :: _ => .ok (c.ecdsaVerify pk indexhash r s, none)
        | _ => .error .indexRange
  | _, _, _ =>
    .ok (false, some "Missing scheme manager index file, signature, or public key")

/-- `Configuration.VerifySignature`: the body wrapped in the deferred
`recover` that converts any panic into `(false, descriptive error)`. -/
def VerifySignature (c : Crypto) (f : SigFiles) : Bool × Option String :=
  match VerifySignatureBody c f with
  | .ok r => r
  | .error p =>
    (false, some ("Scheme manager index signature failed to verify: " ++ goPanicMsg p))

/-! ### The configuration folder on disk

The `irma_configuration` tree is modelled relative to `conf.Path`:
`files p` is the content of the file at relative path `p`, `subdirs d` the
base names of the immediate subdirectories of relative directory path `d`
(the root being `[]`), sorted as `filepath.Glob` returns them, and
`globXml d` the relative paths of the plain files directly under `d` whose
name ends in `.xml` (the glob of `parseKeysFolder`).  Modelled from the
spec: the collaborating filesystem primitives (`exists`, `readFile`,
`writeFile`, `copy`, `glob-subfolders`) live in the repository's
`internal/fs` package, which is not among the provided sources. -/

structure ConfFS where
  files : Str → Option Bytes
  subdirs : Str → List Str
  globXml : Str → List Str

/-- `fs.SaveFile`-style write of one file (directory creation via
`os.MkdirAll` is a no-op on this flat view). -/
def writeFile (fs : ConfFS) (path : Str) (content : Bytes) : ConfFS :=
  { fs with files := fun p => if p = path then some content else fs.files p }

/-- Modelled from the spec: `fs.Copy` reads the source file and writes its
bytes to the destination, failing when the source does not exist. -/
def fsCopy (fs : ConfFS) (src dst : Str) : ConfFS × Option String :=
  match fs.files src with
  | none => (fs, some "copy: source file does not exist")
  | some b => (writeFile fs dst b, none)

/-- Modelled from the spec: the transport collaborator
`Transport.getFile(url, destination)`; `remote` maps a full URL to the
bytes it serves, `none` meaning the download fails. -/
def transportGetFile (remote : Str → Option Bytes) (url : Str) (fs : ConfFS)
    (dest : Str) : ConfFS × Option String :=
  match remote url with
  | none => (fs, some "http: download failed")
  | some b => (writeFile fs dest b, none)

/-- The three files `VerifySignature` reads under the manager directory. -/
def sigFilesAt (fs : ConfFS) (dirName : Str) : SigFiles :=
  { index := fs.files (dirName ++ str "/index"),
    indexSig := fs.files (dirName ++ str "/index.sig"),
    pkPem := fs.files (dirName ++ str "/pk.pem") }

/-! ### In-memory objects

The `SchemeManager`, `Issuer` and `CredentialType` description types and
their constructors live in a repository file that is not among the provided
sources; modelled from the spec: a manager starts `Unprocessed` with
`Valid=false` (§4.5), issuers and credential types carry their identifier,
schema version, and a `Valid` snapshot (§3).  XML unmarshalling of
description documents is the external `XmlDecode` collaborator, passed in
as the `XmlDecoders` record (which also carries the external
`gabi.NewPublicKeyFromBytes`). -/

inductive SchemeManagerStatus
  | valid
  | unprocessed
  | invalidIndex
  | invalidSignature
  | parsingError
  | contentParsingError
deriving DecidableEq

structure SchemeManager where
  id : Str
  url : Str
  status : SchemeManagerStatus
  valid : Bool
  index : SchemeManagerIndex
deriving DecidableEq

/-- Modelled from the spec: `NewSchemeManager(name)` makes an `Unprocessed`,
not-yet-valid manager whose ID is the folder base name. -/
def NewSchemeManager (name : Str) : SchemeManager :=
  { id := name, url := [], status := .unprocessed, valid := false, index := [] }

structure SchemeManagerError where
  manager : Str
  status : SchemeManagerStatus
  err : String
deriving DecidableEq

structure SchemeManagerDesc where
  xmlVersion : Nat
deriving DecidableEq

structure IssuerDesc where
  id : Str
  xmlVersion : Nat
deriving DecidableEq

structure CredentialTypeDesc where
  id : Str
  xmlVersion : Nat
deriving DecidableEq

structure Issuer where
  id : Str
  xmlVersion : Nat
  valid : Bool
deriving DecidableEq

structure CredentialType where
  id : Str
  xmlVersion : Nat
  valid : Bool
deriving DecidableEq

structure GabiPublicKey where
  key : Nat
  issuer : Str
deriving DecidableEq

structure XmlDecoders where
  schemeManager : Bytes → Except String SchemeManagerDesc
  issuer : Bytes → Except String IssuerDesc
  credentialType : Bytes → Except String CredentialTypeDesc
  gabiPublicKey : Bytes → Except String Nat

/-- ASCII bytes of a string, for hashing identifier strings. -/
def encodeStr (s : Str) : Bytes := s.map Char.toNat

structure Configuration where
  schemeManagers : List (Str × SchemeManager)
  issuers : List (Str × Issuer)
  credentialTypes : List (Str × CredentialType)
  disabledSchemeManagers : List (Str × SchemeManagerError)
  publicKeys : List (Str × List (Int × GabiPublicKey))
  /-- Keyed by the truncated credential-type hash; the Go code base64-encodes
  this 16-byte key, an injective step omitted here. -/
  reverseHashes : List (Bytes × Str)
  initialized : Bool
deriving DecidableEq

/-- `Configuration.clear`. -/
def clearConf (conf : Configuration) : Configuration :=
  { conf with schemeManagers := [], issuers := [], credentialTypes := [],
              disabledSchemeManagers := [], publicKeys := [], reverseHashes := [] }

def emptyConfiguration : Configuration :=
  { schemeManagers := [], issuers := [], credentialTypes := [],
    disabledSchemeManagers := [], publicKeys := [], reverseHashes := [],
    initialized := false }

/-! ### ReadAuthenticatedFile (irmaconfig.go) -/

/-- `Configuration.ReadAuthenticatedFile`: look the path up in the signed
index; absent means `(nil, false, nil)`; present means read the file and
compare its SHA-256 hash with the signed entry. -/
def ReadAuthenticatedFile (c : Crypto) (index : SchemeManagerIndex)
    (fs : ConfFS) (path : Str) : Option Bytes × Bool × Option String :=
  match alookup index path with
  | none => (none, false, none)
  | some signedHash =>
    match fs.files path with
    | none => (none, true, some "file read error")
    | some bts =>
      if c.sha256 bts = signedHash then (some bts, true, none)
      else (none, true, some ("Hash of " ++ String.mk path ++
        " does not match scheme manager index"))

/-- `Configuration.pathToDescription`, parameterized by the XML decoder of
the target description type: `ok none` is the Go `(false, nil)` outcome
(file absent, or not part of the trusted set). -/
def pathToDescription {α : Type} (c : Crypto) (fs : ConfFS)
    (dec : Bytes → Except String α) (index : SchemeManagerIndex) (path : Str) :
    Except String (Option α) :=
  if (fs.files path).isNone then .ok none
  else
    match ReadAuthenticatedFile c index fs path with
    | (_, false, _) => .ok none
    | (_, true, some e) => .error e
    | (bts, true, none) =>
      match dec (bts.getD []) with
      | .error e => .error e
      | .ok d => .ok (some d)

/-! ### VerifySchemeManager (irmaconfig.go) -/

/-- The spot-check loop of `VerifySchemeManager`: every index entry that
also exists on disk must pass an authenticated read. -/
def spotCheckFiles (c : Crypto) (fs : ConfFS) (index : SchemeManagerIndex) :
    List (Str × Bytes) → Option String
  | [] => none
  | (p, _) :: rest =>
    if (fs.files p).isNone then spotCheckFiles c fs index rest
    else
      match ReadAuthenticatedFile c index fs p with
      | (_, _, some e) => some e
      | (_, _, none) => spotCheckFiles c fs index rest

/-- `Configuration.VerifySchemeManager` for the manager in directory
`dirName` holding index `index`. -/
def VerifySchemeManager (c : Crypto) (fs : ConfFS) (dirName : Str)
    (index : SchemeManagerIndex) : Option String :=
  match VerifySignature c (sigFilesAt fs dirName) with
  | (_, some e) => some e
  | (valid, none) =>
    if !valid then some "Scheme manager signature was invalid"
    else spotCheckFiles c fs index index

/-- `Configuration.parseIndex`: read `<name>/index` and parse it; like the
Go function it returns the (possibly partially filled) index together with
the error. -/
def parseIndexFS (fs : ConfFS) (name : Str) : SchemeManagerIndex × Option String :=
  match fs.files (name ++ str "/index") with
  | none => ([], some "Missing scheme manager index file")
  | some bts => indexFromString (bts.map Char.ofNat)

/-! ### Folder parsing (irmaconfig.go)

The issuer and credential-type methods `Identifier`,
`SchemeManagerIdentifier` on the description objects live in a repository
file that is not among the provided sources; modelled from the spec:
they derive ancestors through `parent()` (§4.1), i.e. through
`objectIdentifierParent`, inheriting its slice-bounds panic on an
identifier with no separator.  Looking up a manager that is not in the map
yields Go's nil pointer, so reading `.Valid` from it panics. -/

def managerValidAt (conf : Configuration) (smid : Str) : Except GoPanic Bool :=
  match alookup conf.schemeManagers smid with
  | some m => .ok m.valid
  | none => .error .nilDeref

/-- Scheme-manager key of a credential-type identifier:
`parent(parent(id))`. -/
def credSchemeManagerKey (s : Str) : Except GoPanic Str :=
  (objectIdentifierParent s).bind objectIdentifierParent

/-- `iterateSubfolders`: run the handler on each subfolder base name,
skipping `.git`, stopping at the first error but keeping the state built so
far (the Go handlers mutate `conf` in place). -/
def iterateSubfolders
    (handler : Configuration → Str → Except GoPanic (Configuration × Option String)) :
    Configuration → List Str → Except GoPanic (Configuration × Option String)
  | conf, [] => .ok (conf, none)
  | conf, d :: rest =>
    if d = str ".git" then iterateSubfolders handler conf rest
    else
      match handler conf d with
      | .error p => .error p
      | .ok (conf2, some e) => .ok (conf2, some e)
      | .ok (conf2, none) => iterateSubfolders handler conf2 rest

/-- Handler of `parseCredentialsFolder` for one candidate credential-type
folder `d` under `issuesPath`. -/
def parseCredentialsHandler (c : Crypto) (x : XmlDecoders) (fs : ConfFS)
    (index : SchemeManagerIndex) (issuesPath : Str) (conf : Configuration)
    (d : Str) : Except GoPanic (Configuration × Option String) :=
  match pathToDescription c fs x.credentialType index
      (issuesPath ++ '/' :: d ++ str "/description.xml") with
  | .error e => .ok (conf, some e)
  | .ok none => .ok (conf, none)
  | .ok (some cd) =>
    if cd.xmlVersion < 4 then .ok (conf, some "Unsupported credential type description")
    else
      match credSchemeManagerKey cd.id with
      | .error p => .error p
      | .ok smk =>
        match managerValidAt conf smk with
        | .error p => .error p
        | .ok v =>
          let cred : CredentialType := { id := cd.id, xmlVersion := cd.xmlVersion, valid := v }
          .ok ({ conf with
                 credentialTypes := aupdate conf.credentialTypes cd.id cred,
                 reverseHashes :=
                   aupdate conf.reverseHashes ((c.sha256 (encodeStr cd.id)).take 16) cd.id },
               none)

/-- Handler of `parseIssuerFolders` for one candidate issuer folder `d`
under the manager directory `mgrDir`.  The Go code registers the issuer
pointer and then snapshots `Valid` from its manager; the registered issuer
carries that snapshot, so the completed issuer is registered here. -/
def parseIssuersHandler (c : Crypto) (x : XmlDecoders) (fs : ConfFS)
    (index : SchemeManagerIndex) (mgrDir : Str) (conf : Configuration)
    (d : Str) : Except GoPanic (Configuration × Option String) :=
  match pathToDescription c fs x.issuer index
      (mgrDir ++ '/' :: d ++ str "/description.xml") with
  | .error e => .ok (conf, some e)
  | .ok none => .ok (conf, none)
  | .ok (some idesc) =>
    if idesc.xmlVersion < 4 then .ok (conf, some "Unsupported issuer description")
    else
      match objectIdentifierParent idesc.id with
      | .error p => .error p
      | .ok smk =>
        match managerValidAt conf smk with
        | .error p => .error p
        | .ok v =>
          let iss : Issuer := { id := idesc.id, xmlVersion := idesc.xmlVersion, valid := v }
          let conf2 := { conf with issuers := aupdate conf.issuers idesc.id iss }
          iterateSubfolders
            (parseCredentialsHandler c x fs index (mgrDir ++ '/' :: d ++ str "/Issues"))
            conf2 (fs.subdirs (mgrDir ++ '/' :: d ++ str "/Issues"))

/-- `Configuration.ParseSchemeManagerFolder`.  The manager is registered in
the map immediately and kept there whatever happens; every error is wrapped
into a `SchemeManagerError` carrying the status the manager ended in. -/
def ParseSchemeManagerFolder (c : Crypto) (x : XmlDecoders) (fs : ConfFS)
    (conf : Configuration) (dirName : Str) :
    Except GoPanic (Configuration × Option SchemeManagerError) :=
  let mgr0 := NewSchemeManager dirName
  let conf0 := { conf with schemeManagers := aupdate conf.schemeManagers dirName mgr0 }
  if (fs.files (dirName ++ str "/description.xml")).isNone then
    .ok (conf0, some ⟨dirName, mgr0.status, "path does not exist"⟩)
  else
    match parseIndexFS fs dirName with
    | (idx, some e) =>
      let mgr1 := { mgr0 with index := idx, status := .invalidIndex }
      .ok ({ conf0 with schemeManagers := aupdate conf0.schemeManagers dirName mgr1 },
           some ⟨dirName, .invalidIndex, e⟩)
    | (idx, none) =>
      let mgr1 := { mgr0 with index := idx }
      let conf1 := { conf0 with schemeManagers := aupdate conf0.schemeManagers dirName mgr1 }
      match VerifySchemeManager c fs dirName idx with
      | some e =>
        let mgr2 := { mgr1 with status := .invalidSignature }
        .ok ({ conf1 with schemeManagers := aupdate conf1.schemeManagers dirName mgr2 },
             some ⟨dirName, .invalidSignature, e⟩)
      | none =>
        match pathToDescription c fs x.schemeManager idx (dirName ++ str "/description.xml") with
        | .ok none =>
          let mgr2 := { mgr1 with status := .parsingError }
          .ok ({ conf1 with schemeManagers := aupdate conf1.schemeManagers dirName mgr2 },
               some ⟨dirName, .parsingError, "Scheme manager description not found"⟩)
        | .error e =>
          let mgr2 := { mgr1 with status := .parsingError }
          .ok ({ conf1 with schemeManagers := aupdate conf1.schemeManagers dirName mgr2 },
               some ⟨dirName, .parsingError, e⟩)
        | .ok (some desc) =>
          if desc.xmlVersion < 7 then
            let mgr2 := { mgr1 with status := .parsingError }
            .ok ({ conf1 with schemeManagers := aupdate conf1.schemeManagers dirName mgr2 },
                 some ⟨dirName, .parsingError, "Unsupported scheme manager description"⟩)
          else
            match iterateSubfolders (parseIssuersHandler c x fs idx dirName) conf1
                (fs.subdirs dirName) with
            | .error p => .error p
            | .ok (conf2, some e) =>
              let mgr2 := { mgr1 with status := .contentParsingError }
              .ok ({ conf2 with schemeManagers := aupdate conf2.schemeManagers dirName mgr2 },
                   some ⟨dirName, .contentParsingError, e⟩)
            | .ok (conf2, none) =>
              let mgr2 := { mgr1 with status := .valid, valid := true }
              .ok ({ conf2 with schemeManagers := aupdate conf2.schemeManagers dirName mgr2 },
                   none)

/-- The folder loop of `ParseFolder`: scheme-manager errors are recorded in
`DisabledSchemeManagers` and do not stop the iteration; the last one seen
is returned at the end. -/
def parseFolderLoop (c : Crypto) (x : XmlDecoders) (fs : ConfFS) :
    Configuration → Option SchemeManagerError → List Str →
    Except GoPanic (Configuration × Option SchemeManagerError)
  | conf, mgrerr, [] => .ok (conf, mgrerr)
  | conf, mgrerr, d :: rest =>
    if d = str ".git" then parseFolderLoop c x fs conf mgrerr rest
    else
      match ParseSchemeManagerFolder c x fs conf d with
      | .error p => .error p
      | .ok (conf2, none) => parseFolderLoop c x fs conf2 mgrerr rest
      | .ok (conf2, some e) =>
        parseFolderLoop c x fs
          { conf2 with disabledSchemeManagers := aupdate conf2.disabledSchemeManagers d e }
          (some e) rest

/-- `Configuration.ParseFolder`. -/
def ParseFolder (c : Crypto) (x : XmlDecoders) (fs : ConfFS)
    (conf : Configuration) :
    Except GoPanic (Configuration × Option SchemeManagerError) :=
  match parseFolderLoop c x fs (clearConf conf) none (fs.subdirs []) with
  | .error p => .error p
  | .ok (conf2, mgrerr) => .ok ({ conf2 with initialized := true }, mgrerr)

/-! ### RemoveSchemeManager and Prune (irmaconfig.go) -/

def filterOutCredentialTypes :
    List (Str × CredentialType) → Str → Except GoPanic (List (Str × CredentialType))
  | [], _ => .ok []
  | (k, v) :: rest, id =>
    match credSchemeManagerKey k with
    | .error p => .error p
    | .ok smk =>
      match filterOutCredentialTypes rest id with
      | .error p => .error p
      | .ok r => .ok (if smk = id then r else (k, v) :: r)

def filterOutIssuers :
    List (Str × Issuer) → Str → Except GoPanic (List (Str × Issuer))
  | [], _ => .ok []
  | (k, v) :: rest, id =>
    match objectIdentifierParent k with
    | .error p => .error p
    | .ok smk =>
      match filterOutIssuers rest id with
      | .error p => .error p
      | .ok r => .ok (if smk = id then r else (k, v) :: r)

def filterOutPublicKeys :
    List (Str × List (Int × GabiPublicKey)) → Str →
    Except GoPanic (List (Str × List (Int × GabiPublicKey)))
  | [], _ => .ok []
  | (k, v) :: rest, id =>
    match objectIdentifierParent k with
    | .error p => .error p
    | .ok smk =>
      match filterOutPublicKeys rest id with
      | .error p => .error p
      | .ok r => .ok (if smk = id then r else (k, v) :: r)

/-- `Configuration.RemoveSchemeManager` (the in-memory part,
`fromStorage=false`): drop everything falling under the manager. -/
def RemoveSchemeManager (conf : Configuration) (id : Str) :
    Except GoPanic Configuration :=
  match filterOutCredentialTypes conf.credentialTypes id with
  | .error p => .error p
  | .ok creds =>
    match filterOutIssuers conf.issuers id with
    | .error p => .error p
    | .ok isss =>
      match filterOutPublicKeys conf.publicKeys id with
      | .error p => .error p
      | .ok pks =>
        .ok { conf with credentialTypes := creds, issuers := isss, publicKeys := pks,
                        schemeManagers := aremove conf.schemeManagers id }

def pruneLoop : Configuration → List (Str × SchemeManager) → Except GoPanic Configuration
  | conf, [] => .ok conf
  | conf, (_, m) :: rest =>
    if !m.valid then
      match RemoveSchemeManager conf m.id with
      | .error p => .error p
      | .ok conf2 => pruneLoop conf2 rest
    else pruneLoop conf rest

/-- `Configuration.Prune`: remove every invalid scheme manager and
everything it owns. -/
def Prune (conf : Configuration) : Except GoPanic Configuration :=
  pruneLoop conf conf.schemeManagers

/-! ### Lazy public-key loading (irmaconfig.go) -/

def decDigits? : Str → Option Nat
  | [] => none
  | [c] => if '0' ≤ c ∧ c ≤ '9' then some (c.toNat - Char.toNat '0') else none
  | c :: rest =>
    if '0' ≤ c ∧ c ≤ '9' then
      match decDigits? rest with
      | some n =>
        some ((c.toNat - Char.toNat '0') * 10 ^ rest.length + n)
      | none => none
    else none

/-- `strconv.Atoi`: an optional sign followed by one or more decimal
digits. -/
def atoi? (s : Str) : Option Int :=
  match s with
  | '-' :: rest => (decDigits? rest).map (fun n => -(n : Int))
  | '+' :: rest => (decDigits? rest).map (fun n => (n : Int))
  | _ => (decDigits? s).map (fun n => (n : Int))

/-- The file loop of `parseKeysFolder`: each `<i>.xml` under `PublicKeys`
is authenticated-read and parsed; a non-numeric name is skipped; keys are
written into the cache entry one by one, so keys ingested before a failure
stay cached.  `mgrIndex = none` is the nil manager pointer Go would
dereference in `ReadAuthenticatedFile`. -/
def keysLoop (c : Crypto) (x : XmlDecoders) (fs : ConfFS)
    (mgrIndex : Option SchemeManagerIndex) (issuerid : Str) :
    List Str → List (Int × GabiPublicKey) →
    Except GoPanic (List (Int × GabiPublicKey) × Option String)
  | [], ks => .ok (ks, none)
  | file :: rest, ks =>
    let filename := objectIdentifierName file
    let count := filename.take (filename.length - 4)
    match atoi? count with
    | none => keysLoop c x fs mgrIndex issuerid rest ks
    | some i =>
      match mgrIndex with
      | none => .error .nilDeref
      | some idx =>
        match ReadAuthenticatedFile c idx fs file with
        | (_, _, some e) => .ok (ks, some e)
        | (_, false, none) => .ok (ks, none)
        | (bts, true, none) =>
          match x.gabiPublicKey (bts.getD []) with
          | .error e => .ok (ks, some e)
          | .ok k =>
            keysLoop c x fs mgrIndex issuerid rest
              (aupdate ks i { key := k, issuer := issuerid })

/-- `Configuration.PublicKey`: on a cache miss the issuer's cache entry is
created (empty) before `parseKeysFolder` runs, and the keys parsed before
any failure are kept in it; on a cache hit the cached value for the counter
is returned with no error and nothing is re-parsed. -/
def PublicKey (c : Crypto) (x : XmlDecoders) (fs : ConfFS)
    (conf : Configuration) (id : Str) (counter : Int) :
    Except GoPanic (Configuration × Option GabiPublicKey × Option String) :=
  match alookup conf.publicKeys id with
  | some cache => .ok (conf, alookup cache counter, none)
  | none =>
    let conf1 := { conf with publicKeys := aupdate conf.publicKeys id [] }
    match objectIdentifierParent id with
    | .error p => .error p
    | .ok smid =>
      let mgrIndex := (alookup conf1.schemeManagers smid).map SchemeManager.index
      let dir := objectIdentifierName smid ++ '/' :: objectIdentifierName id ++
        str "/PublicKeys"
      match keysLoop c x fs mgrIndex id (fs.globXml dir) [] with
      | .error p => .error p
      | .ok (ks, some e) =>
        .ok ({ conf1 with publicKeys := aupdate conf1.publicKeys id ks }, none, some e)
      | .ok (ks, none) =>
        .ok ({ conf1 with publicKeys := aupdate conf1.publicKeys id ks },
             alookup ks counter, none)

/-! ### Update synchronization (irmaconfig.go) -/

def backupManagerSignature (fs : ConfFS) (index sig : Str) : ConfFS × Option String :=
  match fsCopy fs index (index ++ str ".backup") with
  | (fs1, some e) => (fs1, some e)
  | (fs1, none) => fsCopy fs1 sig (sig ++ str ".backup")

def restoreManagerSignature (fs : ConfFS) (index sig : Str) : ConfFS × Option String :=
  match fsCopy fs (index ++ str ".backup") index with
  | (fs1, some e) => (fs1, some e)
  | (fs1, none) => fsCopy fs1 (sig ++ str ".backup") sig

/-- `Configuration.DownloadSchemeManagerSignature`: back up `index` and
`index.sig`, download new versions, verify; on any failure after the backup
the deferred restore copies the backups over the fresh downloads (the
restore result itself is discarded, as in the Go `_ =` assignment). -/
def DownloadSchemeManagerSignature (c : Crypto) (remote : Str → Option Bytes)
    (fs : ConfFS) (mgr : SchemeManager) : ConfFS × Option String :=
  let index := mgr.id ++ str "/index"
  let sig := mgr.id ++ str "/index.sig"
  match backupManagerSignature fs index sig with
  | (fs1, some e) => (fs1, some e)
  | (fs1, none) =>
    match transportGetFile remote (mgr.url ++ str "/index") fs1 index with
    | (fs2, some e) => ((restoreManagerSignature fs2 index sig).1, some e)
    | (fs2, none) =>
      match transportGetFile remote (mgr.url ++ str "/index.sig") fs2 sig with
      | (fs3, some e) => ((restoreManagerSignature fs3 index sig).1, some e)
      | (fs3, none) =>
        match VerifySignature c (sigFilesAt fs3 mgr.id) with
        | (_, some e) => ((restoreManagerSignature fs3 index sig).1, some e)
        | (valid, none) =>
          if valid then (fs3, none)
          else ((restoreManagerSignature fs3 index sig).1,
                some "Scheme manager signature invalid")

/-- The file-sync loop of `UpdateSchemeManager` over the entries of the new
index: an entry is skipped exactly when the old index knows the path, the
file exists, and the hashes are equal; otherwise the file is downloaded
from the manager URL plus the path with the manager-ID segment stripped.
The recording of issuer and credential-type identifiers into the optional
`downloaded` set (a caller-output diff that touches neither the file system
nor the configuration) is not modelled. -/
def syncLoop (remote : Str → Option Bytes) (mgr : SchemeManager) :
    ConfFS → List (Str × Bytes) → ConfFS × Option String
  | fs, [] => (fs, none)
  | fs, (filename, newHash) :: rest =>
    match alookup mgr.index filename with
    | some oldHash =>
      if (fs.files filename).isSome ∧ oldHash = newHash then
        syncLoop remote mgr fs rest
      else
        match remote (mgr.url ++ '/' :: filename.drop (mgr.id.length + 1)) with
        | none => (fs, some "http: download failed")
        | some content => syncLoop remote mgr (writeFile fs filename content) rest
    | none =>
      match remote (mgr.url ++ '/' :: filename.drop (mgr.id.length + 1)) with
      | none => (fs, some "http: download failed")
      | some content => syncLoop remote mgr (writeFile fs filename content) rest

/-- `Configuration.UpdateSchemeManager`: download and verify the new
index/signature pair, then sync the files of the new index, and finally
replace the manager's in-memory index (the graph itself is not reparsed). -/
def UpdateSchemeManager (c : Crypto) (remote : Str → Option Bytes)
    (fs : ConfFS) (conf : Configuration) (id : Str) :
    ConfFS × Configuration × Option String :=
  match alookup conf.schemeManagers id with
  | none => (fs, conf, some "Cannot update unknown scheme manager")
  | some mgr =>
    match DownloadSchemeManagerSignature c remote fs mgr with
    | (fs1, some e) => (fs1, conf, some e)
    | (fs1, none) =>
      match parseIndexFS fs1 mgr.id with
      | (_, some e) => (fs1, conf, some e)
      | (newIndex, none) =>
        match syncLoop remote mgr fs1 newIndex with
        | (fs2, some e) => (fs2, conf, some e)
        | (fs2, none) =>
          (fs2,
           { conf with
             schemeManagers := aupdate conf.schemeManagers id ({ mgr with index := newIndex }) },
           none)

/-! ### Concrete instances

Small closed instantiations of the external collaborators and of the file
system, used to evaluate the theorems on concrete inputs. -/

/-- A degenerate but structurally faithful crypto instance: hashing is the
identity, every PEM block and PKIX key parses, every signature verifies. -/
def idCrypto : Crypto :=
  { sha256 := fun b => b
    pemDecode := fun b => some ⟨b⟩
    parsePKIXPublicKey := fun _ => .ok (.ecdsa ⟨0⟩)
    ecdsaVerify := fun _ _ _ _ => true }

/-- Like `idCrypto` but `pem.Decode` finds no PEM block in any input, as it
does on garbage bytes; the Go code then dereferences a nil block. -/
def badPemCrypto : Crypto :=
  { idCrypto with pemDecode := fun _ => none }

/-- Like `idCrypto` but the ECDSA check accepts exactly `(r, s) = (1, 2)`. -/
def rsCrypto : Crypto :=
  { idCrypto with ecdsaVerify := fun _ _ r s => decide (r = 1 ∧ s = 2) }

/-- XML decoders that reject everything. -/
def noXml : XmlDecoders :=
  { schemeManager := fun _ => .error "xml"
    issuer := fun _ => .error "xml"
    credentialType := fun _ => .error "xml"
    gabiPublicKey := fun _ => .error "gabi" }

/-- DER bytes of `SEQUENCE { INTEGER 1, INTEGER 2 }`. -/
def sigTwoInts : Bytes := [48, 6, 2, 1, 1, 2, 1, 2]

/-- DER bytes of `SEQUENCE { INTEGER 1, INTEGER 2, INTEGER 3 }`: not a
sequence of exactly two integers. -/
def sigThreeInts : Bytes := [48, 9, 2, 1, 1, 2, 1, 2, 2, 1, 3]

/-- A file system from association lists. -/
def fsOfList (l : List (Str × Bytes)) (sub : List (Str × List Str))
    (gx : List (Str × List Str)) : ConfFS :=
  { files := fun p => alookup l p
    subdirs := fun d => (alookup sub d).getD []
    globXml := fun d => (alookup gx d).getD [] }

def c1Files : SigFiles := { index := some [], indexSig := some [], pkPem := some [] }

def c5Files : SigFiles := { index := some [0], indexSig := some sigThreeInts, pkPem := some [7] }

def c5FilesTwo : SigFiles := { index := some [0], indexSig := some sigTwoInts, pkPem := some [7] }

def c2Index : SchemeManagerIndex := [(str "a", [1])]

def c2FS : ConfFS := fsOfList [(str "a", [1])] [] []

def c6Index : SchemeManagerIndex := [(str "a", [0]), (str "b", [255])]

/-- An index whose single path contains a space: a legitimate map entry the
line format cannot represent. -/
def c6BadIndex : SchemeManagerIndex := [(str "a b", List.replicate 32 0)]

def c3IndexText : Bytes := encodeStr (str "00 m/description.xml\n")

def c3FS : ConfFS :=
  fsOfList
    [(str "m/description.xml", [0]), (str "m/index", c3IndexText),
     (str "m/index.sig", [1]), (str "m/pk.pem", [2])]
    [([], [str "m"])] []

/-- The index parsed from `c3FS`. -/
def c3Idx : SchemeManagerIndex := [(str "m/description.xml", [0])]

/-- The recovered-panic message produced when `pk.pem` holds no PEM block. -/
def c3Msg : String :=
  "Scheme manager index signature failed to verify: runtime error: invalid memory address or nil pointer dereference"

/-- The configuration after `ParseFolder` over `c3FS` with `badPemCrypto`:
manager `m` registered as `InvalidSignature`, recorded as disabled. -/
def c3Conf2 : Configuration :=
  { schemeManagers := [(str "m", ⟨str "m", [], .invalidSignature, false, c3Idx⟩)],
    issuers := [], credentialTypes := [],
    disabledSchemeManagers := [(str "m", ⟨str "m", .invalidSignature, c3Msg⟩)],
    publicKeys := [], reverseHashes := [], initialized := true }

/-- `c3Conf2` after `Prune`: the invalid manager is gone. -/
def c3Pruned : Configuration := { c3Conf2 with schemeManagers := [] }

def c8IndexText : Bytes :=
  encodeStr (str "00 m/description.xml\n01 m/i1/description.xml\n02 m/i2/description.xml\n")

def c8Index : SchemeManagerIndex :=
  [(str "m/description.xml", [0]), (str "m/i1/description.xml", [1]),
   (str "m/i2/description.xml", [2])]

def c8FS : ConfFS :=
  fsOfList
    [(str "m/description.xml", [0]), (str "m/i1/description.xml", [1]),
     (str "m/i2/description.xml", [2]), (str "m/index", c8IndexText),
     (str "m/index.sig", sigTwoInts), (str "m/pk.pem", [3])]
    [([], [str "m"]), (str "m", [str "i1", str "i2"]), (str "m/i1/Issues", [])]
    []

/-- Issuer `i1` parses at version 4, issuer `i2` at the unsupported
version 3; the manager description parses at version 7. -/
def c8Xml : XmlDecoders :=
  { schemeManager := fun b => if b = [0] then .ok ⟨7⟩ else .error "xml"
    issuer := fun b =>
      if b = [1] then .ok ⟨str "m/i1", 4⟩
      else if b = [2] then .ok ⟨str "m/i2", 3⟩
      else .error "xml"
    credentialType := fun _ => .error "xml"
    gabiPublicKey := fun _ => .error "gabi" }

/-- The configuration state at the point the issuer iteration of `c8FS`
fails: the manager is registered (index parsed, still `Unprocessed`) and
issuer `m/i1` has been ingested; `m/i2` caused the failure. -/
def c8Conf2 : Configuration :=
  { emptyConfiguration with
    schemeManagers := [(str "m", ⟨str "m", [], .unprocessed, false, c8Index⟩)],
    issuers := [(str "m/i1", ⟨str "m/i1", 4, false⟩)] }

def c10Index : SchemeManagerIndex :=
  [(str "m/i/PublicKeys/1.xml", [10]), (str "m/i/PublicKeys/2.xml", [20])]

def c10Mgr : SchemeManager :=
  { id := str "m", url := [], status := .valid, valid := true, index := c10Index }

def c10Conf : Configuration :=
  { emptyConfiguration with schemeManagers := [(str "m", c10Mgr)] }

def c10FS : ConfFS :=
  fsOfList
    [(str "m/i/PublicKeys/1.xml", [10]), (str "m/i/PublicKeys/2.xml", [20])]
    []
    [(str "m/i/PublicKeys", [str "m/i/PublicKeys/1.xml", str "m/i/PublicKeys/2.xml"])]

/-- Key file `1.xml` parses; key file `2.xml` does not. -/
def c10Xml : XmlDecoders :=
  { noXml with gabiPublicKey := fun b => if b = [10] then .ok 7 else .error "gabi: parse error" }

/-- The configuration after the first, failing `PublicKey` call: the cache
entry for the issuer exists and holds the one key ingested before the
failure. -/
def c10Conf1 : Configuration :=
  { c10Conf with publicKeys := [(str "m/i", [(1, ⟨7, str "m/i"⟩)])] }

def c4Mgr : SchemeManager :=
  { id := str "m", url := str "u", status := .valid, valid := true, index := [] }

def c4Conf : Configuration :=
  { emptyConfiguration with schemeManagers := [(str "m", c4Mgr)] }

def c4FS : ConfFS :=
  fsOfList [(str "m/index", [1]), (str "m/index.sig", [2]), (str "m/pk.pem", [3])] [] []

def c4Remote : Str → Option Bytes := fun u =>
  if u = str "u/index" then some [4]
  else if u = str "u/index.sig" then some [5]
  else none

def c7Mgr : SchemeManager :=
  { id := str "m", url := str "u", status := .valid, valid := true,
    index := [(str "m/a", [1])] }

def c7FS : ConfFS := fsOfList [(str "m/a", [1])] [] []

def c7Remote : Str → Option Bytes := fun u => if u = str "u/b" then some [2] else none

def c7Entries : List (Str × Bytes) := [(str "m/a", [1]), (str "m/b", [2])]

/-! ## Helper lemmas -/

theorem alookup_aupdate_self {α β : Type} [DecidableEq α]
    (l : List (α × β)) (k : α) (v : β) :
    alookup (aupdate l k v) k = some v := by
  induction l with
  | nil => simp [aupdate, alookup]
  | cons e rest ih =>
    obtain ⟨k0, v0⟩ := e
    by_cases h : k0 = k
    · subst h; simp [aupdate, alookup]
    · simp [aupdate, alookup, h, ih]

theorem alookup_aupdate_ne {α β : Type} [DecidableEq α]
    (l : List (α × β)) {k k' : α} (v : β) (h : k ≠ k') :
    alookup (aupdate l k v) k' = alookup l k' := by
  induction l with
  | nil => simp [aupdate, alookup, h]
  | cons e rest ih =>
    obtain ⟨k0, v0⟩ := e
    by_cases h0 : k0 = k
    · subst h0; simp [aupdate, alookup, h]
    · simp [aupdate, alookup, h0, ih]

theorem alookup_mem {α β : Type} [DecidableEq α]
    {l : List (α × β)} {k : α} {v : β} (h : alookup l k = some v) : (k, v) ∈ l := by
  induction l with
  | nil => simp [alookup] at h
  | cons e rest ih =>
    obtain ⟨k0, v0⟩ := e
    by_cases h0 : k0 = k
    · subst h0
      simp [alookup] at h
      subst h; exact List.mem_cons_self _ _
    · simp [alookup, h0] at h
      exact List.mem_cons_of_mem _ (ih h)

theorem alookup_eq_none_iff {α β : Type} [DecidableEq α]
    {l : List (α × β)} {k : α} :
    alookup l k = none ↔ ∀ e ∈ l, e.1 ≠ k := by
  induction l with
  | nil => simp [alookup]
  | cons e rest ih =>
    obtain ⟨k0, v0⟩ := e
    by_cases h0 : k0 = k
    · subst h0; simp [alookup]
    · simp [alookup, h0, ih]

theorem alookup_append_of_none {α β : Type} [DecidableEq α]
    {a : List (α × β)} (b : List (α × β)) {k : α} (h : alookup a k = none) :
    alookup (a ++ b) k = alookup b k := by
  induction a with
  | nil => simp
  | cons e rest ih =>
    obtain ⟨k0, v0⟩ := e
    by_cases h0 : k0 = k
    · simp [alookup, h0] at h
    · simp [alookup, h0] at h ⊢
      exact ih h

theorem aupdate_of_absent {α β : Type} [DecidableEq α]
    {l : List (α × β)} {k : α} (v : β) (h : alookup l k = none) :
    aupdate l k v = l ++ [(k, v)] := by
  induction l with
  | nil => simp [aupdate]
  | cons e rest ih =>
    obtain ⟨k0, v0⟩ := e
    by_cases h0 : k0 = k
    · simp [alookup, h0] at h
    · simp [alookup, h0] at h
      simp [aupdate, h0, ih h]

theorem mem_aremove {α β : Type} [DecidableEq α]
    {l : List (α × β)} {k : α} {e : α × β} (h : e ∈ aremove l k) :
    e ∈ l ∧ e.1 ≠ k := by
  have := List.mem_filter.1 h
  refine ⟨this.1, by simpa using this.2⟩

theorem alookup_aremove_self {α β : Type} [DecidableEq α]
    (l : List (α × β)) (k : α) : alookup (aremove l k) k = none := by
  rw [alookup_eq_none_iff]
  intro e he
  exact (mem_aremove he).2

theorem writeFile_files (fs : ConfFS) (p : Str) (b : Bytes) (q : Str) :
    (writeFile fs p b).files q = if q = p then some b else fs.files q := rfl

theorem append_ne_of_suffix_ne {α : Type} (a : List α) {x y : List α} (h : x ≠ y) :
    a ++ x ≠ a ++ y := fun he => h (by simpa using he)

/-! ## Claim C1 -/

/-- Claim C1: `VerifySignature` is total on every state of the index,
signature, and public-key files: a panic raised by the body while parsing
untrusted key or signature material is caught and becomes the ordinary
result `(valid=false, descriptive error)`, and a normal body result is
passed through unchanged. -/
theorem claimC1_verifySignature_never_panics (c : Crypto) (f : SigFiles) :
    (∀ p, VerifySignatureBody c f = .error p →
      VerifySignature c f =
        (false, some ("Scheme manager index signature failed to verify: " ++ goPanicMsg p))) ∧
    (∀ r, VerifySignatureBody c f = .ok r → VerifySignature c f = r) := by
  constructor
  · intro p h; simp [VerifySignature, h]
  · intro r h; simp [VerifySignature, h]

/-- Witness for C1: on garbage `pk.pem` bytes the body really panics (nil
dereference of the missing PEM block) and the wrapper converts it. -/
theorem claimC1_witness :
    VerifySignatureBody badPemCrypto c1Files = .error .nilDeref ∧
    VerifySignature badPemCrypto c1Files =
      (false, some ("Scheme manager index signature failed to verify: " ++
        goPanicMsg .nilDeref)) :=
  ⟨rfl, (claimC1_verifySignature_never_panics badPemCrypto c1Files).1 .nilDeref rfl⟩

/-! ## Claim C5 -/

/-- Counterexample to C5: a signature file that is a DER SEQUENCE of three
integers — not of exactly two — still verifies successfully: the Go code
takes `ints[0]`, `ints[1]` and ignores the remaining integer (and
`asn1.Unmarshal` ignores trailing bytes after the sequence). -/
theorem claimC5_counterexample :
    asn1UnmarshalBigInts sigThreeInts = .ok ([1, 2, 3], []) ∧
    VerifySignature rsCrypto c5Files = (true, none) := ⟨rfl, rfl⟩

/-- Claim C5, amended: verification can succeed only when the signature
file parses as an ASN.1 SEQUENCE of at least two integers; the first two
are used as `(r, s)`, and any further integers or trailing bytes are
ignored rather than rejected. -/
theorem claimC5_amended (c : Crypto) (f : SigFiles)
    (h : (VerifySignature c f).1 = true) :
    ∃ sigbts ints rest, f.indexSig = some sigbts ∧
      asn1UnmarshalBigInts sigbts = .ok (ints, rest) ∧ 2 ≤ ints.length := by
  rcases f with ⟨fi, fsg, fp⟩
  cases fi with
  | none => simp [VerifySignature, VerifySignatureBody] at h
  | some indexbts =>
  cases fsg with
  | none => simp [VerifySignature, VerifySignatureBody] at h
  | some sigbts =>
  cases fp with
  | none => simp [VerifySignature, VerifySignatureBody] at h
  | some pkbts =>
  cases hp : c.pemDecode pkbts with
  | none => simp [VerifySignature, VerifySignatureBody, hp] at h
  | some pkblk =>
  cases hx : c.parsePKIXPublicKey pkblk.bytes with
  | error e => simp [VerifySignature, VerifySignatureBody, hp, hx] at h
  | ok key =>
  cases key with
  | other => simp [VerifySignature, VerifySignatureBody, hp, hx] at h
  | ecdsa pk =>
  cases ha : asn1UnmarshalBigInts sigbts with
  | error e => simp [VerifySignature, VerifySignatureBody, hp, hx, ha] at h
  | ok res =>
  obtain ⟨ints, rest⟩ := res
  match ints with
  | [] => simp [VerifySignature, VerifySignatureBody, hp, hx, ha] at h
  | [r] => simp [VerifySignature, VerifySignatureBody, hp, hx, ha] at h
  | r :: s :: t =>
    exact ⟨sigbts, r :: s :: t, rest, rfl, ha, by simp⟩

/-- Witness for the amended C5: a well-formed two-integer signature that
verifies. -/
theorem claimC5_amended_witness :
    ∃ sigbts ints rest, c5FilesTwo.indexSig = some sigbts ∧
      asn1UnmarshalBigInts sigbts = .ok (ints, rest) ∧ 2 ≤ ints.length :=
  claimC5_amended rsCrypto c5FilesTwo rfl

/-! ## Claim C2 -/

/-- Claim C2: `ReadAuthenticatedFile` has exactly the three-outcome
contract: a path absent from the index yields `(nil, false, nil)` — never
conflated with an error; a present path whose content hashes differently
yields an integrity error with `found=true`; a present path with a matching
hash yields the bytes with `found=true` and no error. -/
theorem claimC2_readAuthenticatedFile_outcomes (c : Crypto)
    (index : SchemeManagerIndex) (fs : ConfFS) (path : Str) :
    (alookup index path = none →
      ReadAuthenticatedFile c index fs path = (none, false, none)) ∧
    (∀ h bts, alookup index path = some h → fs.files path = some bts →
      c.sha256 bts ≠ h →
      ReadAuthenticatedFile c index fs path =
        (none, true, some ("Hash of " ++ String.mk path ++
          " does not match scheme manager index"))) ∧
    (∀ h bts, alookup index path = some h → fs.files path = some bts →
      c.sha256 bts = h →
      ReadAuthenticatedFile c index fs path = (some bts, true, none)) := by
  refine ⟨fun h => by simp [ReadAuthenticatedFile, h], ?_, ?_⟩
  · intro h bts h1 h2 h3
    simp [ReadAuthenticatedFile, h1, h2, h3]
  · intro h bts h1 h2 h3
    simp [ReadAuthenticatedFile, h1, h2, h3]

/-- Witness for C2, exercising all three outcomes on concrete inputs. -/
theorem claimC2_witness :
    ReadAuthenticatedFile idCrypto c2Index c2FS (str "b") = (none, false, none) ∧
    ReadAuthenticatedFile idCrypto c2Index (fsOfList [(str "a", [9])] [] []) (str "a") =
      (none, true, some ("Hash of " ++ String.mk (str "a") ++
        " does not match scheme manager index")) ∧
    ReadAuthenticatedFile idCrypto c2Index c2FS (str "a") = (some [1], true, none) :=
  ⟨(claimC2_readAuthenticatedFile_outcomes idCrypto c2Index c2FS (str "b")).1 rfl,
   (claimC2_readAuthenticatedFile_outcomes idCrypto c2Index
      (fsOfList [(str "a", [9])] [] []) (str "a")).2.1 [1] [9] rfl rfl (by decide),
   (claimC2_readAuthenticatedFile_outcomes idCrypto c2Index c2FS (str "a")).2.2
      [1] [1] rfl rfl rfl⟩

/-! ## Claim C9 -/

theorem strLastIdx_of_not_mem {ch : Char} : ∀ {s : Str}, ch ∉ s → strLastIdx ch s = none
  | [], _ => rfl
  | c :: rest, h => by
    have hc : c ≠ ch := fun he => h (he ▸ List.mem_cons_self c rest)
    have hr : ch ∉ rest := fun hm => h (List.mem_cons_of_mem c hm)
    simp [strLastIdx, strLastIdx_of_not_mem hr, hc]

theorem strLastIdx_append_cons_of_not_mem {ch : Char} {ys : Str} (hys : ch ∉ ys) :
    ∀ xs : Str, strLastIdx ch (xs ++ ch :: ys) = some xs.length
  | [] => by simp [strLastIdx, strLastIdx_of_not_mem hys]
  | c :: xs => by
    simp [strLastIdx, strLastIdx_append_cons_of_not_mem hys xs]

theorem strLastIdx_append_cons_of_some {ch : Char} {ys : Str} {j : Nat}
    (hys : strLastIdx ch ys = some j) :
    ∀ xs : Str, strLastIdx ch (xs ++ ch :: ys) = some (xs.length + 1 + j)
  | [] => by
    show strLastIdx ch (ch :: ys) = _
    unfold strLastIdx
    rw [hys]
    simp only [List.length_nil]
    congr 1
    omega
  | c :: xs => by
    show strLastIdx ch (c :: (xs ++ ch :: ys)) = _
    unfold strLastIdx
    rw [strLastIdx_append_cons_of_some hys xs]
    simp only [List.length_cons]
    congr 1
    omega

/-- Counterexample to C9: with the dot-separated identifier of the claim,
`Parent` finds no `/` separator and the Go slice expression panics, so the
derivation chain does not produce the scheme manager identifier `m`. -/
theorem claimC9_counterexample :
    credentialTypeSchemeManager (NewCredentialTypeIdentifier (str "m.i.c")) =
      .error .sliceRange ∧
    credentialTypeSchemeManager (NewCredentialTypeIdentifier (str "m.i.c")) ≠
      .ok (NewSchemeManagerIdentifier (str "m")) := by
  refine ⟨rfl, fun h => ?_⟩
  have h2 : (Except.error .sliceRange : Except GoPanic SchemeManagerIdentifier) =
      .ok (NewSchemeManagerIdentifier (str "m")) := h
  simp at h2

/-- Claim C9, amended: identifiers are slash-delimited, and on them the
derivation composes: for any segments with `i` and `c` free of `/`, the
credential-type identifier `m/i/c` derives through the issuer identifier to
exactly the scheme manager identifier `m`. -/
theorem claimC9_amended (m i c : Str) (hi : '/' ∉ i) (hc : '/' ∉ c) :
    credentialTypeSchemeManager
        (NewCredentialTypeIdentifier (m ++ '/' :: (i ++ '/' :: c))) =
      .ok (NewSchemeManagerIdentifier m) := by
  have h1 : strLastIdx '/' (i ++ '/' :: c) = some i.length :=
    strLastIdx_append_cons_of_not_mem hc i
  have h2 : strLastIdx '/' (m ++ '/' :: (i ++ '/' :: c)) =
      some (m.length + 1 + i.length) :=
    strLastIdx_append_cons_of_some h1 m
  have htake : (m ++ '/' :: (i ++ '/' :: c)).take (m.length + 1 + i.length) =
      m ++ '/' :: i := by
    have hshape : m ++ '/' :: (i ++ '/' :: c) = (m ++ '/' :: i) ++ '/' :: c := by
      simp
    have hlen : (m ++ '/' :: i).length = m.length + 1 + i.length := by
      simp [List.length_append]
      omega
    rw [hshape, ← hlen, List.take_left]
  have h3 : strLastIdx '/' (m ++ '/' :: i) = some m.length :=
    strLastIdx_append_cons_of_not_mem hi m
  have htake2 : (m ++ '/' :: i).take m.length = m := List.take_left m ('/' :: i)
  simp only [credentialTypeSchemeManager, CredentialTypeIdentifier.issuerIdentifier,
    NewCredentialTypeIdentifier, objectIdentifierParent, h2, htake, Except.map,
    Except.bind, IssuerIdentifier.schemeManagerIdentifier, NewIssuerIdentifier,
    h3, htake2, NewSchemeManagerIdentifier]

/-- Witness for the amended C9 at the concrete identifier `m/i/c`. -/
theorem claimC9_amended_witness :
    credentialTypeSchemeManager
        (NewCredentialTypeIdentifier (str "m" ++ '/' :: (str "i" ++ '/' :: str "c"))) =
      .ok (NewSchemeManagerIdentifier (str "m")) :=
  claimC9_amended (str "m") (str "i") (str "c") (by decide) (by decide)

/-! ## Claim C6 -/

theorem hexDigit_roundtrip {n : Nat} (h : n < 16) :
    hexDigitToNat (natToHexDigit n) = some n := by
  interval_cases n <;> decide

theorem natToHexDigit_ne_space {n : Nat} (h : n < 16) : natToHexDigit n ≠ ' ' := by
  interval_cases n <;> decide

theorem natToHexDigit_ne_newline {n : Nat} (h : n < 16) : natToHexDigit n ≠ '\n' := by
  interval_cases n <;> decide

theorem byte_div_lt {b : Nat} (h : b < 256) : b / 16 < 16 :=
  Nat.div_lt_of_lt_mul (by omega)

theorem byte_mod_lt (b : Nat) : b % 16 < 16 := Nat.mod_lt _ (by omega)

theorem hexDecode_hexEncode : ∀ {bs : Bytes}, (∀ b ∈ bs, b < 256) →
    hexDecode (hexEncode bs) = .ok bs
  | [], _ => rfl
  | b :: rest, h => by
    have hb : b < 256 := h b (List.mem_cons_self b rest)
    have hrest : ∀ x ∈ rest, x < 256 := fun x hx => h x (List.mem_cons_of_mem b hx)
    simp only [hexEncode, hexDecode, hexDigit_roundtrip (byte_div_lt hb),
      hexDigit_roundtrip (byte_mod_lt b), hexDecode_hexEncode hrest]
    rw [Nat.div_add_mod b 16]

theorem not_mem_hexEncode_space : ∀ {bs : Bytes}, (∀ b ∈ bs, b < 256) →
    ' ' ∉ hexEncode bs
  | [], _ => by simp [hexEncode]
  | b :: rest, h => by
    have hb : b < 256 := h b (List.mem_cons_self b rest)
    have hrest : ∀ x ∈ rest, x < 256 := fun x hx => h x (List.mem_cons_of_mem b hx)
    simp only [hexEncode, List.mem_cons, not_or]
    exact ⟨fun he => natToHexDigit_ne_space (byte_div_lt hb) he.symm,
           fun he => natToHexDigit_ne_space (byte_mod_lt b) he.symm,
           not_mem_hexEncode_space hrest⟩

theorem not_mem_hexEncode_newline : ∀ {bs : Bytes}, (∀ b ∈ bs, b < 256) →
    '\n' ∉ hexEncode bs
  | [], _ => by simp [hexEncode]
  | b :: rest, h => by
    have hb : b < 256 := h b (List.mem_cons_self b rest)
    have hrest : ∀ x ∈ rest, x < 256 := fun x hx => h x (List.mem_cons_of_mem b hx)
    simp only [hexEncode, List.mem_cons, not_or]
    exact ⟨fun he => natToHexDigit_ne_newline (byte_div_lt hb) he.symm,
           fun he => natToHexDigit_ne_newline (byte_mod_lt b) he.symm,
           not_mem_hexEncode_newline hrest⟩

theorem splitOnChar_of_not_mem {sep : Char} : ∀ {xs : Str}, sep ∉ xs →
    splitOnChar sep xs = [xs]
  | [], _ => rfl
  | c :: rest, h => by
    have hc : ¬c = sep := fun he => h (he ▸ List.mem_cons_self c rest)
    have hr : sep ∉ rest := fun hm => h (List.mem_cons_of_mem c hm)
    simp [splitOnChar, hc, splitOnChar_of_not_mem hr]

theorem splitOnChar_append_cons {sep : Char} {ys : Str} :
    ∀ {xs : Str}, sep ∉ xs →
    splitOnChar sep (xs ++ sep :: ys) = xs :: splitOnChar sep ys
  | [], _ => by simp [splitOnChar]
  | c :: xs, h => by
    have hc : ¬c = sep := fun he => h (he ▸ List.mem_cons_self c xs)
    have hx : sep ∉ xs := fun hm => h (List.mem_cons_of_mem c hm)
    simp [splitOnChar, hc, splitOnChar_append_cons hx]

theorem lexLt_irrefl : ∀ s : Str, lexLt s s = false
  | [] => rfl
  | a :: as => by simp [lexLt, lexLt_irrefl as]

theorem lexLt_asymm : ∀ {a b : Str}, lexLt a b = true → lexLt b a = false
  | [], [], h => by simp [lexLt] at h
  | [], _ :: _, _ => rfl
  | _ :: _, [], h => by simp [lexLt] at h
  | x :: xs, y :: ys, h => by
    by_cases h1 : x.toNat < y.toNat
    · simp [lexLt, h1, Nat.lt_asymm h1, Nat.ne_of_gt h1]
    · by_cases h2 : y.toNat < x.toNat
      · simp [lexLt, h1, h2] at h
      · simp only [lexLt, h1, h2, if_false] at h ⊢
        exact lexLt_asymm h

theorem lexLt_ne {a b : Str} (h : lexLt a b = true) : a ≠ b := by
  intro he
  subst he
  rw [lexLt_irrefl] at h
  exact Bool.noConfusion h

theorem sortInsert_of_head {x : Str × Bytes} :
    ∀ {l : List (Str × Bytes)}, (∀ y ∈ l.head?, lexLt x.1 y.1 = true) →
    sortInsert x l = x :: l
  | [], _ => rfl
  | y :: ys, h => by
    have : lexLt y.1 x.1 = false := lexLt_asymm (h y rfl)
    simp [sortInsert, this]

theorem sortIndex_of_sorted :
    ∀ {l : List (Str × Bytes)},
      List.Pairwise (fun a b : Str × Bytes => lexLt a.1 b.1 = true) l →
      sortIndex l = l
  | [], _ => rfl
  | e :: rest, h => by
    have hrest := sortIndex_of_sorted h.of_cons
    have hall : ∀ y ∈ rest, lexLt e.1 y.1 = true := by
      intro y hy
      exact List.rel_of_pairwise_cons h hy
    calc sortIndex (e :: rest) = sortInsert e (sortIndex rest) := rfl
      _ = sortInsert e rest := by rw [hrest]
      _ = e :: rest := by
          refine sortInsert_of_head ?_
          intro y hy
          exact hall y (List.mem_of_mem_head? hy)

/-- The parse loop applied to serialized well-formed lines inserts exactly
the serialized entries, in order. -/
theorem fromStringLoop_indexLines :
    ∀ {l : List (Str × Bytes)} (acc : SchemeManagerIndex) (j : Nat),
      (∀ e ∈ l, ' ' ∉ e.1 ∧ '\n' ∉ e.1) →
      (∀ e ∈ l, ∀ b ∈ e.2, b < 256) →
      fromStringLoop (splitOnChar '\n' (indexLines l)) j acc =
        (l.foldl (fun a e => aupdate a e.1 e.2) acc, none)
  | [], acc, j, _, _ => rfl
  | e :: l, acc, j, hp, hb => by
    have hpe := hp e (List.mem_cons_self e l)
    have hbe := hb e (List.mem_cons_self e l)
    have hpl : ∀ f ∈ l, ' ' ∉ f.1 ∧ '\n' ∉ f.1 :=
      fun f hf => hp f (List.mem_cons_of_mem e hf)
    have hbl : ∀ f ∈ l, ∀ b ∈ f.2, b < 256 :=
      fun f hf => hb f (List.mem_cons_of_mem e hf)
    have hshape : indexLines (e :: l) =
        (hexEncode e.2 ++ ' ' :: e.1) ++ '\n' :: indexLines l := by
      show indexLine e ++ indexLines l = _
      simp [indexLine, List.append_assoc]
    have hnl : '\n' ∉ hexEncode e.2 ++ ' ' :: e.1 := by
      intro hm
      rcases List.mem_append.1 hm with hm | hm
      · exact not_mem_hexEncode_newline hbe hm
      · rcases List.mem_cons.1 hm with hm | hm
        · exact absurd hm (by decide)
        · exact hpe.2 hm
    have hsplit : splitOnChar '\n' (indexLines (e :: l)) =
        (hexEncode e.2 ++ ' ' :: e.1) :: splitOnChar '\n' (indexLines l) := by
      rw [hshape]
      exact splitOnChar_append_cons hnl
    have hne : ¬(hexEncode e.2 ++ ' ' :: e.1 = []) := by
      simp
    have hsplit2 : splitOnChar ' ' (hexEncode e.2 ++ ' ' :: e.1) =
        [hexEncode e.2, e.1] := by
      rw [splitOnChar_append_cons (not_mem_hexEncode_space hbe),
        splitOnChar_of_not_mem hpe.1]
    rw [hsplit]
    show fromStringLoop _ j acc = _
    rw [fromStringLoop, if_neg hne, hsplit2]
    simp only [hexDecode_hexEncode hbe]
    rw [fromStringLoop_indexLines (aupdate acc e.1 e.2) (j + 1) hpl hbl]
    rfl

theorem foldl_aupdate_append :
    ∀ {l : List (Str × Bytes)} {acc : SchemeManagerIndex},
      (∀ e ∈ l, alookup acc e.1 = none) →
      List.Pairwise (fun a b : Str × Bytes => a.1 ≠ b.1) l →
      l.foldl (fun a e => aupdate a e.1 e.2) acc = acc ++ l
  | [], acc, _, _ => by simp
  | e :: l, acc, habs, hnd => by
    have he : alookup acc e.1 = none := habs e (List.mem_cons_self e l)
    have hstep : aupdate acc e.1 e.2 = acc ++ [e] := aupdate_of_absent e.2 he
    have habs2 : ∀ f ∈ l, alookup (acc ++ [e]) f.1 = none := by
      intro f hf
      rw [alookup_append_of_none _ (habs f (List.mem_cons_of_mem e hf))]
      have : e.1 ≠ f.1 := List.rel_of_pairwise_cons hnd hf
      simp [alookup, this]
    rw [List.foldl_cons, hstep, foldl_aupdate_append habs2 hnd.of_cons]
    simp

/-- Counterexample to C6: the valid index mapping the relative path `a b`
(which contains a space) to a 32-byte hash does not round-trip: its
serialization splits into three tokens and parsing fails. -/
theorem claimC6_counterexample :
    indexFromString (indexToString c6BadIndex) ≠ (c6BadIndex, none) := by
  decide

/-- Claim C6, amended: serialization round-trips for every index whose
paths contain no space and no newline (byte each hash byte below 256, and
the map in its canonical strictly path-sorted form): parsing the
deterministic serialization yields the index back with no error.  An index
whose path contains a space or a newline is not representable in the line
format and fails to round-trip. -/
theorem claimC6_amended (i : SchemeManagerIndex)
    (hsort : List.Pairwise (fun a b : Str × Bytes => lexLt a.1 b.1 = true) i)
    (hchars : ∀ e ∈ i, ' ' ∉ e.1 ∧ '\n' ∉ e.1)
    (hbytes : ∀ e ∈ i, ∀ b ∈ e.2, b < 256) :
    indexFromString (indexToString i) = (i, none) := by
  have hnd : List.Pairwise (fun a b : Str × Bytes => a.1 ≠ b.1) i :=
    hsort.imp (fun h => lexLt_ne h)
  rw [indexToString, sortIndex_of_sorted hsort, indexFromString,
    fromStringLoop_indexLines [] 0 hchars hbytes,
    foldl_aupdate_append (by simp [alookup]) hnd]
  rfl

/-- Witness for the amended C6 on a concrete two-entry index. -/
theorem claimC6_amended_witness :
    indexFromString (indexToString c6Index) = (c6Index, none) :=
  claimC6_amended c6Index (by decide) (by decide) (by decide)

/-! ## Claim C4 -/

/-- `DownloadSchemeManagerSignature` against downloads whose signature
fails verification returns the error and leaves `index` and `index.sig`
with their pre-call bytes (restored from the backups). -/
theorem dsms_restores (c : Crypto) (remote : Str → Option Bytes) (fs : ConfFS)
    (mgr : SchemeManager) (oldIdx oldSig newIdx newSig : Bytes)
    (hoi : fs.files (mgr.id ++ str "/index") = some oldIdx)
    (hos : fs.files (mgr.id ++ str "/index.sig") = some oldSig)
    (hri : remote (mgr.url ++ str "/index") = some newIdx)
    (hrs : remote (mgr.url ++ str "/index.sig") = some newSig)
    (hv : (VerifySignature c
            ⟨some newIdx, some newSig, fs.files (mgr.id ++ str "/pk.pem")⟩).1 = false ∨
          (VerifySignature c
            ⟨some newIdx, some newSig, fs.files (mgr.id ++ str "/pk.pem")⟩).2.isSome) :
    ∃ fs5 e, DownloadSchemeManagerSignature c remote fs mgr = (fs5, some e) ∧
      fs5.files (mgr.id ++ str "/index") = some oldIdx ∧
      fs5.files (mgr.id ++ str "/index.sig") = some oldSig := by
  have hsuffix : ∀ {x y : Str}, x ≠ y → mgr.id ++ x ≠ mgr.id ++ y :=
    fun hxy => append_ne_of_suffix_ne mgr.id hxy
  have hib : (mgr.id ++ str "/index") ++ str ".backup" =
      mgr.id ++ (str "/index" ++ str ".backup") := List.append_assoc _ _ _
  have hsb : (mgr.id ++ str "/index.sig") ++ str ".backup" =
      mgr.id ++ (str "/index.sig" ++ str ".backup") := List.append_assoc _ _ _
  have nIxSig : mgr.id ++ str "/index" ≠ mgr.id ++ str "/index.sig" := hsuffix (by decide)
  have nSigIx : mgr.id ++ str "/index.sig" ≠ mgr.id ++ str "/index" := hsuffix (by decide)
  have nSigIb : mgr.id ++ str "/index.sig" ≠ (mgr.id ++ str "/index") ++ str ".backup" := by
    rw [hib]; exact hsuffix (by decide)
  have nIxIb : mgr.id ++ str "/index" ≠ (mgr.id ++ str "/index") ++ str ".backup" := by
    rw [hib]; exact hsuffix (by decide)
  have nIxSb : mgr.id ++ str "/index" ≠ (mgr.id ++ str "/index.sig") ++ str ".backup" := by
    rw [hsb]; exact hsuffix (by decide)
  have nSigSb : mgr.id ++ str "/index.sig" ≠ (mgr.id ++ str "/index.sig") ++ str ".backup" := by
    rw [hsb]; exact hsuffix (by decide)
  have nIbIx : (mgr.id ++ str "/index") ++ str ".backup" ≠ mgr.id ++ str "/index" := by
    rw [hib]; exact hsuffix (by decide)
  have nIbSig : (mgr.id ++ str "/index") ++ str ".backup" ≠ mgr.id ++ str "/index.sig" := by
    rw [hib]; exact hsuffix (by decide)
  have nIbSb : (mgr.id ++ str "/index") ++ str ".backup" ≠
      (mgr.id ++ str "/index.sig") ++ str ".backup" := by
    rw [hib, hsb]; exact hsuffix (by decide)
  have nSbIx : (mgr.id ++ str "/index.sig") ++ str ".backup" ≠ mgr.id ++ str "/index" := by
    rw [hsb]; exact hsuffix (by decide)
  have nSbSig : (mgr.id ++ str "/index.sig") ++ str ".backup" ≠ mgr.id ++ str "/index.sig" := by
    rw [hsb]; exact hsuffix (by decide)
  have nPkIx : mgr.id ++ str "/pk.pem" ≠ mgr.id ++ str "/index" := hsuffix (by decide)
  have nPkSig : mgr.id ++ str "/pk.pem" ≠ mgr.id ++ str "/index.sig" := hsuffix (by decide)
  have nPkIb : mgr.id ++ str "/pk.pem" ≠ (mgr.id ++ str "/index") ++ str ".backup" := by
    rw [hib]; exact hsuffix (by decide)
  have nPkSb : mgr.id ++ str "/pk.pem" ≠ (mgr.id ++ str "/index.sig") ++ str ".backup" := by
    rw [hsb]; exact hsuffix (by decide)
  have hsig3 : sigFilesAt
      (writeFile (writeFile (writeFile (writeFile fs
        ((mgr.id ++ str "/index") ++ str ".backup") oldIdx)
        ((mgr.id ++ str "/index.sig") ++ str ".backup") oldSig)
        (mgr.id ++ str "/index") newIdx)
        (mgr.id ++ str "/index.sig") newSig) mgr.id =
      ⟨some newIdx, some newSig, fs.files (mgr.id ++ str "/pk.pem")⟩ := by
    simp [sigFilesAt, writeFile_files, nIxSig, nIxSb, nIxIb, nSigSb, nSigIb,
      nPkIx, nPkSig, nPkIb, nPkSb]
    rw [if_neg (by decide), if_neg (by decide)]
  rcases hv2 : VerifySignature c
      ⟨some newIdx, some newSig, fs.files (mgr.id ++ str "/pk.pem")⟩ with ⟨valid, err⟩
  cases err with
  | some e =>
    refine ⟨writeFile (writeFile
        (writeFile (writeFile (writeFile (writeFile fs
          ((mgr.id ++ str "/index") ++ str ".backup") oldIdx)
          ((mgr.id ++ str "/index.sig") ++ str ".backup") oldSig)
          (mgr.id ++ str "/index") newIdx)
          (mgr.id ++ str "/index.sig") newSig)
        (mgr.id ++ str "/index") oldIdx)
        (mgr.id ++ str "/index.sig") oldSig, e, ?_, ?_, ?_⟩
    · simp only [DownloadSchemeManagerSignature, backupManagerSignature,
        restoreManagerSignature, fsCopy, transportGetFile, hoi, hos, hri, hrs,
        writeFile_files, if_neg nSigIb, hsig3, hv2, if_neg nIbSig, if_neg nIbIx,
        if_neg nIbSb, if_pos rfl, if_neg nSbIx, if_neg nSbSig]
      simp [writeFile_files,
        (by decide : ¬(str "/index.sig" ++ str ".backup" = str "/index")),
        (by decide : ¬(str "/index.sig" ++ str ".backup" = str "/index.sig")),
        (by decide : ¬(str "/index" ++ str ".backup" = str "/index")),
        (by decide : ¬(str "/index" ++ str ".backup" = str "/index.sig"))]
    · simp [writeFile_files, nIxSig]
    · simp [writeFile_files]
  | none =>
    have hvalid : valid = false := by
      rcases hv with h | h
      · rw [hv2] at h; exact h
      · rw [hv2] at h; exact absurd h (by simp)
    subst hvalid
    refine ⟨writeFile (writeFile
        (writeFile (writeFile (writeFile (writeFile fs
          ((mgr.id ++ str "/index") ++ str ".backup") oldIdx)
          ((mgr.id ++ str "/index.sig") ++ str ".backup") oldSig)
          (mgr.id ++ str "/index") newIdx)
          (mgr.id ++ str "/index.sig") newSig)
        (mgr.id ++ str "/index") oldIdx)
        (mgr.id ++ str "/index.sig") oldSig, "Scheme manager signature invalid", ?_, ?_, ?_⟩
    · simp only [DownloadSchemeManagerSignature, backupManagerSignature,
        restoreManagerSignature, fsCopy, transportGetFile, hoi, hos, hri, hrs,
        writeFile_files, if_neg nSigIb, hsig3, hv2, if_neg nIbSig, if_neg nIbIx,
        if_neg nIbSb, if_pos rfl, if_neg nSbIx, if_neg nSbSig, Bool.not_false,
        if_true, Bool.false_eq_true, if_false]
    · simp [writeFile_files, nIxSig]
    · simp [writeFile_files]

/-- Counterexample to C4: on the invalid-signature error path the `index`
and `index.sig` files are indeed restored and an error is returned, but the
disk state is not unchanged: the freshly written `index.backup` file
remains, so the claim's final sentence is too strong. -/
theorem claimC4_counterexample :
    (UpdateSchemeManager badPemCrypto c4Remote c4FS c4Conf (str "m")).2.2.isSome = true ∧
    (UpdateSchemeManager badPemCrypto c4Remote c4FS c4Conf (str "m")).1.files
        (str "m/index") = c4FS.files (str "m/index") ∧
    (UpdateSchemeManager badPemCrypto c4Remote c4FS c4Conf (str "m")).1.files
        (str "m/index.sig") = c4FS.files (str "m/index.sig") ∧
    (UpdateSchemeManager badPemCrypto c4Remote c4FS c4Conf (str "m")).1.files
        (str "m/index.backup") ≠ c4FS.files (str "m/index.backup") := by
  refine ⟨rfl, rfl, rfl, ?_⟩
  intro h
  exact Option.noConfusion h

/-- Claim C4, amended: when `UpdateSchemeManager` downloads a new index and
`index.sig` whose signature fails verification, it returns an error, the
configuration is untouched, and the local `index` and `index.sig` files are
byte-identical to their pre-call contents (restored from the backed-up
pair); the `index.backup`/`index.sig.backup` files, however, are overwritten
as a side effect, so the disk state as a whole is not unchanged. -/
theorem claimC4_amended (c : Crypto) (remote : Str → Option Bytes) (fs : ConfFS)
    (conf : Configuration) (id : Str) (mgr : SchemeManager)
    (oldIdx oldSig newIdx newSig : Bytes)
    (hm : alookup conf.schemeManagers id = some mgr) (hid : mgr.id = id)
    (hoi : fs.files (id ++ str "/index") = some oldIdx)
    (hos : fs.files (id ++ str "/index.sig") = some oldSig)
    (hri : remote (mgr.url ++ str "/index") = some newIdx)
    (hrs : remote (mgr.url ++ str "/index.sig") = some newSig)
    (hv : (VerifySignature c
            ⟨some newIdx, some newSig, fs.files (id ++ str "/pk.pem")⟩).1 = false ∨
          (VerifySignature c
            ⟨some newIdx, some newSig, fs.files (id ++ str "/pk.pem")⟩).2.isSome) :
    ∃ fs5 e, UpdateSchemeManager c remote fs conf id = (fs5, conf, some e) ∧
      fs5.files (id ++ str "/index") = some oldIdx ∧
      fs5.files (id ++ str "/index.sig") = some oldSig := by
  subst hid
  obtain ⟨fs5, e, hd, h1, h2⟩ :=
    dsms_restores c remote fs mgr oldIdx oldSig newIdx newSig hoi hos hri hrs hv
  refine ⟨fs5, e, ?_, h1, h2⟩
  simp only [UpdateSchemeManager, hm, hd]

/-- Witness for the amended C4 on the concrete manager `m` whose remote
serves a pair that fails verification. -/
theorem claimC4_amended_witness :
    ∃ fs5 e, UpdateSchemeManager badPemCrypto c4Remote c4FS c4Conf (str "m") =
        (fs5, c4Conf, some e) ∧
      fs5.files (str "m" ++ str "/index") = some [1] ∧
      fs5.files (str "m" ++ str "/index.sig") = some [2] :=
  claimC4_amended badPemCrypto c4Remote c4FS c4Conf (str "m") c4Mgr
    [1] [2] [4] [5] rfl rfl rfl rfl rfl rfl (Or.inl rfl)

/-! ## Claim C7 -/

/-- The sync loop writes only at paths of the entries it processes. -/
theorem syncLoop_untouched (remote : Str → Option Bytes) (mgr : SchemeManager) :
    ∀ (entries : List (Str × Bytes)) (fs fs2 : ConfFS) (r : Option String) (q : Str),
      syncLoop remote mgr fs entries = (fs2, r) →
      q ∉ entries.map Prod.fst → fs2.files q = fs.files q
  | [], fs, fs2, r, q, h, _ => by
    rw [syncLoop] at h
    injection h with h1 h2
    rw [← h1]
  | (p, hh) :: rest, fs, fs2, r, q, h, hq => by
    have hqp : q ≠ p := by
      intro he; exact hq (by simp [he])
    have hqr : q ∉ rest.map Prod.fst := fun hm => hq (by simp [hm])
    rw [syncLoop] at h
    cases ho : alookup mgr.index p with
    | some oldHash =>
      simp only [ho] at h
      by_cases hc : (fs.files p).isSome ∧ oldHash = hh
      · rw [if_pos hc] at h
        exact syncLoop_untouched remote mgr rest fs fs2 r q h hqr
      · rw [if_neg hc] at h
        cases hr : remote (mgr.url ++ '/' :: p.drop (mgr.id.length + 1)) with
        | none =>
          simp only [hr] at h
          injection h with h1 h2
          rw [← h1]
        | some content =>
          simp only [hr] at h
          rw [syncLoop_untouched remote mgr rest _ fs2 r q h hqr,
            writeFile_files, if_neg hqp]
    | none =>
      simp only [ho] at h
      cases hr : remote (mgr.url ++ '/' :: p.drop (mgr.id.length + 1)) with
      | none =>
        simp only [hr] at h
        injection h with h1 h2
        rw [← h1]
      | some content =>
        simp only [hr] at h
        rw [syncLoop_untouched remote mgr rest _ fs2 r q h hqr,
          writeFile_files, if_neg hqp]

/-- The per-entry specification of the sync loop, generalized over a file
state that agrees with the pre-call state on every entry path. -/
theorem syncLoop_spec (remote : Str → Option Bytes) (mgr : SchemeManager) (fs0 : ConfFS) :
    ∀ (entries : List (Str × Bytes)) (fs fs2 : ConfFS),
      (∀ p h, (p, h) ∈ entries → fs.files p = fs0.files p) →
      (entries.map Prod.fst).Nodup →
      syncLoop remote mgr fs entries = (fs2, none) →
      ∀ p h, (p, h) ∈ entries →
        ((alookup mgr.index p = some h ∧ (fs0.files p).isSome) →
           fs2.files p = fs0.files p) ∧
        (¬(alookup mgr.index p = some h ∧ (fs0.files p).isSome) →
           fs2.files p = remote (mgr.url ++ '/' :: p.drop (mgr.id.length + 1)))
  | [], fs, fs2, _, _, _, p, h, hmem => absurd hmem (List.not_mem_nil _)
  | (p0, h0) :: rest, fs, fs2, hagree, hnd, hok, p, h, hmem => by
    have hnd2 : (p0 :: rest.map Prod.fst).Nodup := by simpa using hnd
    have hnd0 : p0 ∉ rest.map Prod.fst := (List.nodup_cons.1 hnd2).1
    have hndr : (rest.map Prod.fst).Nodup := (List.nodup_cons.1 hnd2).2
    have hagreer : ∀ q hq, (q, hq) ∈ rest → fs.files q = fs0.files q :=
      fun q hq hm => hagree q hq (List.mem_cons_of_mem _ hm)
    have hagree0 : fs.files p0 = fs0.files p0 :=
      hagree p0 h0 (List.mem_cons_self _ _)
    rw [syncLoop] at hok
    cases ho : alookup mgr.index p0 with
    | some oldHash =>
      simp only [ho] at hok
      by_cases hc : (fs.files p0).isSome ∧ oldHash = h0
      · rw [if_pos hc] at hok
        rcases List.mem_cons.1 hmem with he | hmr
        · obtain ⟨he1, he2⟩ := Prod.mk.injEq .. ▸ he
          subst he1; subst he2
          constructor
          · intro _
            rw [syncLoop_untouched remote mgr rest fs fs2 none p hok hnd0, hagree0]
          · intro hn
            exact absurd ⟨hc.2 ▸ ho, hagree0 ▸ hc.1⟩ hn
        · exact syncLoop_spec remote mgr fs0 rest fs fs2 hagreer hndr hok p h hmr
      · rw [if_neg hc] at hok
        cases hr : remote (mgr.url ++ '/' :: p0.drop (mgr.id.length + 1)) with
        | none =>
          simp only [hr] at hok
          injection hok with hok1 hok2
          exact absurd hok2 (by simp)
        | some content =>
          simp only [hr] at hok
          have hagree2 : ∀ q hq, (q, hq) ∈ rest →
              (writeFile fs p0 content).files q = fs0.files q := by
            intro q hq hm
            have hqp : q ≠ p0 := by
              intro he
              exact hnd0 (he ▸ (List.mem_map.2 ⟨(q, hq), hm, rfl⟩))
            rw [writeFile_files, if_neg hqp]
            exact hagreer q hq hm
          rcases List.mem_cons.1 hmem with he | hmr
          · obtain ⟨he1, he2⟩ := Prod.mk.injEq .. ▸ he
            subst he1; subst he2
            have hnC0 : ¬(alookup mgr.index p = some h ∧ (fs0.files p).isSome) := by
              intro hC0
              have : oldHash = h := by
                have := ho.symm.trans hC0.1
                exact Option.some.injEq .. ▸ this
              exact hc ⟨hagree0 ▸ hC0.2, this⟩
            refine ⟨fun hC0 => absurd hC0 hnC0, fun _ => ?_⟩
            rw [syncLoop_untouched remote mgr rest _ fs2 none p hok hnd0,
              writeFile_files, if_pos rfl, hr]
          · exact syncLoop_spec remote mgr fs0 rest (writeFile fs p0 content) fs2
              hagree2 hndr hok p h hmr
    | none =>
      simp only [ho] at hok
      cases hr : remote (mgr.url ++ '/' :: p0.drop (mgr.id.length + 1)) with
      | none =>
        simp only [hr] at hok
        injection hok with hok1 hok2
        exact absurd hok2 (by simp)
      | some content =>
        simp only [hr] at hok
        have hagree2 : ∀ q hq, (q, hq) ∈ rest →
            (writeFile fs p0 content).files q = fs0.files q := by
          intro q hq hm
          have hqp : q ≠ p0 := by
            intro he
            exact hnd0 (he ▸ (List.mem_map.2 ⟨(q, hq), hm, rfl⟩))
          rw [writeFile_files, if_neg hqp]
          exact hagreer q hq hm
        rcases List.mem_cons.1 hmem with he | hmr
        · obtain ⟨he1, he2⟩ := Prod.mk.injEq .. ▸ he
          subst he1; subst he2
          have hnC0 : ¬(alookup mgr.index p = some h ∧ (fs0.files p).isSome) := by
            intro hC0
            rw [ho] at hC0
            exact Option.noConfusion hC0.1
          refine ⟨fun hC0 => absurd hC0 hnC0, fun _ => ?_⟩
          rw [syncLoop_untouched remote mgr rest _ fs2 none p hok hnd0,
            writeFile_files, if_pos rfl, hr]
        · exact syncLoop_spec remote mgr fs0 rest (writeFile fs p0 content) fs2
            hagree2 hndr hok p h hmr

/-- Claim C7: in the file-sync loop of `UpdateSchemeManager`, for every
`(path, hash)` entry of the new index (paths distinct, loop completing
without error), the download is skipped — the file at that path is left
untouched — if and only if the old index maps the path to an equal hash and
the file already exists locally; in every other case the file at that path
ends up downloaded from the manager URL plus the stripped path. -/
theorem claimC7_sync_skip_iff (remote : Str → Option Bytes) (mgr : SchemeManager)
    (fs0 fs2 : ConfFS) (entries : List (Str × Bytes))
    (hnd : (entries.map Prod.fst).Nodup)
    (hok : syncLoop remote mgr fs0 entries = (fs2, none)) :
    ∀ p h, (p, h) ∈ entries →
      ((alookup mgr.index p = some h ∧ (fs0.files p).isSome) →
         fs2.files p = fs0.files p) ∧
      (¬(alookup mgr.index p = some h ∧ (fs0.files p).isSome) →
         fs2.files p = remote (mgr.url ++ '/' :: p.drop (mgr.id.length + 1))) :=
  syncLoop_spec remote mgr fs0 entries fs0 fs2 (fun _ _ _ => rfl) hnd hok

/-- Witness for C7: entry `m/a` is known with an equal hash and exists, so
it is skipped; entry `m/b` is new and is downloaded from `u/b`. -/
theorem claimC7_witness :
    (writeFile c7FS (str "m/b") [2]).files (str "m/a") = c7FS.files (str "m/a") ∧
    (writeFile c7FS (str "m/b") [2]).files (str "m/b") =
      c7Remote (c7Mgr.url ++ '/' :: (str "m/b").drop (c7Mgr.id.length + 1)) :=
  ⟨(claimC7_sync_skip_iff c7Remote c7Mgr c7FS (writeFile c7FS (str "m/b") [2])
      c7Entries (by decide) rfl (str "m/a") [1] (by decide)).1 (by decide),
   (claimC7_sync_skip_iff c7Remote c7Mgr c7FS (writeFile c7FS (str "m/b") [2])
      c7Entries (by decide) rfl (str "m/b") [2] (by decide)).2 (by decide)⟩

/-! ## Claim C10 -/

/-- Counterexample to C10: key file `1.xml` is ingested before `2.xml`
fails to parse, so the first call errors with the cache entry populated;
the second call for the same issuer and counter 1 is a cache hit that
returns the non-nil cached key (not a nil key) with no error. -/
theorem claimC10_counterexample :
    PublicKey idCrypto c10Xml c10FS c10Conf (str "m/i") 1 =
      .ok (c10Conf1, none, some "gabi: parse error") ∧
    PublicKey idCrypto c10Xml c10FS c10Conf1 (str "m/i") 1 =
      .ok (c10Conf1, some ⟨7, str "m/i"⟩, none) := ⟨rfl, rfl⟩

/-- Claim C10, amended: a first `PublicKey` call that fails while parsing
the keys folder still leaves the issuer's cache entry populated (with the
keys ingested before the failure, possibly none), so every subsequent call
for that issuer is a cache hit that returns the cached value for the
requested counter — the ingested key if present, nil otherwise — with no
error, never re-parsing the folder or repeating the error. -/
theorem claimC10_amended (c : Crypto) (x : XmlDecoders) (fs : ConfFS) :
    (∀ (conf : Configuration) (id : Str) (counter : Int)
       (cache : List (Int × GabiPublicKey)),
       alookup conf.publicKeys id = some cache →
       PublicKey c x fs conf id counter = .ok (conf, alookup cache counter, none)) ∧
    (∀ (conf : Configuration) (id : Str) (counter : Int) (smid : Str)
       (ks : List (Int × GabiPublicKey)) (e : String),
       alookup conf.publicKeys id = none →
       objectIdentifierParent id = .ok smid →
       keysLoop c x fs ((alookup conf.schemeManagers smid).map SchemeManager.index) id
         (fs.globXml (objectIdentifierName smid ++ '/' :: objectIdentifierName id ++
           str "/PublicKeys")) [] = .ok (ks, some e) →
       PublicKey c x fs conf id counter =
         .ok ({ conf with publicKeys := aupdate (aupdate conf.publicKeys id []) id ks },
              none, some e) ∧
       (alookup (aupdate (aupdate conf.publicKeys id []) id ks) id).isSome) := by
  constructor
  · intro conf id counter cache hc
    simp [PublicKey, hc]
  · intro conf id counter smid ks e hn hps hkl
    refine ⟨?_, by simp [alookup_aupdate_self]⟩
    simp only [PublicKey, hn, hps, hkl]

/-- Witness for the amended C10 on the concrete two-key-file issuer. -/
theorem claimC10_amended_witness :
    (PublicKey idCrypto c10Xml c10FS c10Conf1 (str "m/i") 1 =
      .ok (c10Conf1, alookup [(1, (⟨7, str "m/i"⟩ : GabiPublicKey))] 1, none)) ∧
    (PublicKey idCrypto c10Xml c10FS c10Conf (str "m/i") 1 =
      .ok ({ c10Conf with
             publicKeys :=
               aupdate (aupdate c10Conf.publicKeys (str "m/i") []) (str "m/i")
                 [(1, ⟨7, str "m/i"⟩)] },
           none, some "gabi: parse error") ∧
     (alookup (aupdate (aupdate c10Conf.publicKeys (str "m/i") []) (str "m/i")
        [(1, ⟨7, str "m/i"⟩)]) (str "m/i")).isSome) :=
  ⟨(claimC10_amended idCrypto c10Xml c10FS).1 c10Conf1 (str "m/i") 1
      [(1, ⟨7, str "m/i"⟩)] rfl,
   (claimC10_amended idCrypto c10Xml c10FS).2 c10Conf (str "m/i") 1 (str "m")
      [(1, ⟨7, str "m/i"⟩)] "gabi: parse error" rfl rfl rfl⟩

/-! ## Claim C3 -/

/-- A failing signature verification makes `VerifySchemeManager` fail,
whatever the index. -/
theorem verifySchemeManager_fails (c : Crypto) (fs : ConfFS) (d : Str)
    (i : SchemeManagerIndex)
    (hsig : (VerifySignature c (sigFilesAt fs d)).1 = false ∨
            (VerifySignature c (sigFilesAt fs d)).2.isSome) :
    ∃ e, VerifySchemeManager c fs d i = some e := by
  rcases hv : VerifySignature c (sigFilesAt fs d) with ⟨valid, err⟩
  cases err with
  | some e => exact ⟨e, by simp [VerifySchemeManager, hv]⟩
  | none =>
    have hvalid : valid = false := by
      rcases hsig with h | h
      · rw [hv] at h; exact h
      · rw [hv] at h; exact absurd h (by simp)
    subst hvalid
    exact ⟨"Scheme manager signature was invalid", by simp [VerifySchemeManager, hv]⟩

/-- On the invalid-signature path, `ParseSchemeManagerFolder` registers the
manager with status `InvalidSignature` and `Valid=false`, touches nothing
else, and returns the wrapped error. -/
theorem psmf_invalidSignature (c : Crypto) (x : XmlDecoders) (fs : ConfFS)
    (conf : Configuration) (d : Str) (db : Bytes) (idx : SchemeManagerIndex)
    (e0 : String)
    (hdesc : fs.files (d ++ str "/description.xml") = some db)
    (hidx : parseIndexFS fs d = (idx, none))
    (hvs : VerifySchemeManager c fs d idx = some e0) :
    ParseSchemeManagerFolder c x fs conf d =
      .ok ({ conf with
             schemeManagers :=
               aupdate (aupdate (aupdate conf.schemeManagers d
                   (⟨d, [], .unprocessed, false, []⟩ : SchemeManager)) d
                 (⟨d, [], .unprocessed, false, idx⟩ : SchemeManager)) d
                 (⟨d, [], .invalidSignature, false, idx⟩ : SchemeManager) },
           some ⟨d, .invalidSignature, e0⟩) := by
  simp only [ParseSchemeManagerFolder, NewSchemeManager, hdesc, hidx, hvs,
    Option.isNone_some, Bool.false_eq_true, if_false]

/-- The credential-type handler never touches the scheme-manager,
disabled, or public-key maps. -/
theorem credsHandler_preserves (c : Crypto) (x : XmlDecoders) (fs : ConfFS)
    (index : SchemeManagerIndex) (issuesPath : Str) (conf : Configuration) (d : Str) :
    ∀ pr, parseCredentialsHandler c x fs index issuesPath conf d = .ok pr →
      pr.1.schemeManagers = conf.schemeManagers ∧
      pr.1.disabledSchemeManagers = conf.disabledSchemeManagers ∧
      pr.1.publicKeys = conf.publicKeys := by
  intro pr
  unfold parseCredentialsHandler
  split
  · intro h; injection h with h1; rw [← h1]; exact ⟨rfl, rfl, rfl⟩
  · intro h; injection h with h1; rw [← h1]; exact ⟨rfl, rfl, rfl⟩
  · split
    · intro h; injection h with h1; rw [← h1]; exact ⟨rfl, rfl, rfl⟩
    · split
      · intro h; exact absurd h (by simp)
      · split
        · intro h; exact absurd h (by simp)
        · intro h; injection h with h1; rw [← h1]; exact ⟨rfl, rfl, rfl⟩

/-- Iteration with a map-preserving handler preserves the maps. -/
theorem iterateSubfolders_preserves
    (handler : Configuration → Str → Except GoPanic (Configuration × Option String))
    (hh : ∀ conf d pr, handler conf d = .ok pr →
      pr.1.schemeManagers = conf.schemeManagers ∧
      pr.1.disabledSchemeManagers = conf.disabledSchemeManagers ∧
      pr.1.publicKeys = conf.publicKeys) :
    ∀ (l : List Str) (conf : Configuration) pr,
      iterateSubfolders handler conf l = .ok pr →
      pr.1.schemeManagers = conf.schemeManagers ∧
      pr.1.disabledSchemeManagers = conf.disabledSchemeManagers ∧
      pr.1.publicKeys = conf.publicKeys
  | [], conf, pr, h => by
    rw [iterateSubfolders] at h
    injection h with h1; rw [← h1]; exact ⟨rfl, rfl, rfl⟩
  | d :: rest, conf, pr, h => by
    rw [iterateSubfolders] at h
    by_cases hgit : d = str ".git"
    · rw [if_pos hgit] at h
      exact iterateSubfolders_preserves handler hh rest conf pr h
    · rw [if_neg hgit] at h
      cases hh2 : handler conf d with
      | error p => rw [hh2] at h; exact absurd h (by simp)
      | ok pr2 =>
        obtain ⟨conf2, r2⟩ := pr2
        rw [hh2] at h
        cases r2 with
        | some e =>
          simp only at h
          injection h with h1; rw [← h1]
          exact hh conf d _ hh2
        | none =>
          simp only at h
          have h2 := iterateSubfolders_preserves handler hh rest conf2 pr h
          have h1 := hh conf d _ hh2
          exact ⟨h2.1.trans h1.1, h2.2.1.trans h1.2.1, h2.2.2.trans h1.2.2⟩

/-- The issuer handler never touches the scheme-manager, disabled, or
public-key maps. -/
theorem issuersHandler_preserves (c : Crypto) (x : XmlDecoders) (fs : ConfFS)
    (index : SchemeManagerIndex) (mgrDir : Str) (conf : Configuration) (d : Str) :
    ∀ pr, parseIssuersHandler c x fs index mgrDir conf d = .ok pr →
      pr.1.schemeManagers = conf.schemeManagers ∧
      pr.1.disabledSchemeManagers = conf.disabledSchemeManagers ∧
      pr.1.publicKeys = conf.publicKeys := by
  intro pr
  unfold parseIssuersHandler
  split
  · intro h; injection h with h1; rw [← h1]; exact ⟨rfl, rfl, rfl⟩
  · intro h; injection h with h1; rw [← h1]; exact ⟨rfl, rfl, rfl⟩
  · split
    · intro h; injection h with h1; rw [← h1]; exact ⟨rfl, rfl, rfl⟩
    · split
      · intro h; exact absurd h (by simp)
      · split
        · intro h; exact absurd h (by simp)
        · intro h
          dsimp only at h
          have h2 := iterateSubfolders_preserves _
            (credsHandler_preserves c x fs index _) _ _ pr h
          exact h2

/-- `ParseSchemeManagerFolder` only writes the scheme-manager map at its
own folder key and never touches the disabled or public-key maps. -/
theorem psmf_frame (c : Crypto) (x : XmlDecoders) (fs : ConfFS)
    (conf : Configuration) (e0 : Str) :
    ∀ pr, ParseSchemeManagerFolder c x fs conf e0 = .ok pr →
      (∀ k, k ≠ e0 → alookup pr.1.schemeManagers k = alookup conf.schemeManagers k) ∧
      pr.1.disabledSchemeManagers = conf.disabledSchemeManagers ∧
      pr.1.publicKeys = conf.publicKeys := by
  intro pr
  unfold ParseSchemeManagerFolder
  dsimp only
  split
  · intro h; injection h with h1; rw [← h1]
    refine ⟨?_, rfl, rfl⟩
    intro k hk
    exact alookup_aupdate_ne _ _ (Ne.symm hk)
  · split
    · intro h; injection h with h1; rw [← h1]
      refine ⟨?_, rfl, rfl⟩
      intro k hk
      rw [alookup_aupdate_ne _ _ (Ne.symm hk), alookup_aupdate_ne _ _ (Ne.symm hk)]
    · split
      · intro h; injection h with h1; rw [← h1]
        refine ⟨?_, rfl, rfl⟩
        intro k hk
        rw [alookup_aupdate_ne _ _ (Ne.symm hk), alookup_aupdate_ne _ _ (Ne.symm hk),
          alookup_aupdate_ne _ _ (Ne.symm hk)]
      · split
        · intro h; injection h with h1; rw [← h1]
          refine ⟨?_, rfl, rfl⟩
          intro k hk
          rw [alookup_aupdate_ne _ _ (Ne.symm hk), alookup_aupdate_ne _ _ (Ne.symm hk),
            alookup_aupdate_ne _ _ (Ne.symm hk)]
        · intro h; injection h with h1; rw [← h1]
          refine ⟨?_, rfl, rfl⟩
          intro k hk
          rw [alookup_aupdate_ne _ _ (Ne.symm hk), alookup_aupdate_ne _ _ (Ne.symm hk),
            alookup_aupdate_ne _ _ (Ne.symm hk)]
        · split
          · intro h; injection h with h1; rw [← h1]
            refine ⟨?_, rfl, rfl⟩
            intro k hk
            rw [alookup_aupdate_ne _ _ (Ne.symm hk), alookup_aupdate_ne _ _ (Ne.symm hk),
              alookup_aupdate_ne _ _ (Ne.symm hk)]
          · split
            · intro h; exact absurd h (by simp)
            · next conf2 e2 heq =>
              intro h; injection h with h1; rw [← h1]
              have hpre := iterateSubfolders_preserves _
                (issuersHandler_preserves c x fs _ e0) _ _ _ heq
              refine ⟨?_, hpre.2.1, hpre.2.2⟩
              intro k hk
              rw [alookup_aupdate_ne _ _ (Ne.symm hk), hpre.1]
              dsimp only
              rw [alookup_aupdate_ne _ _ (Ne.symm hk), alookup_aupdate_ne _ _ (Ne.symm hk)]
            · next conf2 heq =>
              intro h; injection h with h1; rw [← h1]
              have hpre := iterateSubfolders_preserves _
                (issuersHandler_preserves c x fs _ e0) _ _ _ heq
              refine ⟨?_, hpre.2.1, hpre.2.2⟩
              intro k hk
              rw [alookup_aupdate_ne _ _ (Ne.symm hk), hpre.1]
              dsimp only
              rw [alookup_aupdate_ne _ _ (Ne.symm hk), alookup_aupdate_ne _ _ (Ne.symm hk)]

/-- The `ParseFolder` loop leaves the entries of folders it does not visit
unchanged, in both the scheme-manager and the disabled map. -/
theorem parseFolderLoop_frame (c : Crypto) (x : XmlDecoders) (fs : ConfFS) (d : Str) :
    ∀ (l : List Str) (conf : Configuration) (merr : Option SchemeManagerError) pr,
      parseFolderLoop c x fs conf merr l = .ok pr →
      d ∉ l →
      alookup pr.1.schemeManagers d = alookup conf.schemeManagers d ∧
      alookup pr.1.disabledSchemeManagers d = alookup conf.disabledSchemeManagers d
  | [], conf, merr, pr, h, _ => by
    rw [parseFolderLoop] at h
    injection h with h1; rw [← h1]; exact ⟨rfl, rfl⟩
  | e0 :: rest, conf, merr, pr, h, hnm => by
    have hne : d ≠ e0 := fun he => hnm (he ▸ List.mem_cons_self _ _)
    have hnr : d ∉ rest := fun hm => hnm (List.mem_cons_of_mem _ hm)
    rw [parseFolderLoop] at h
    by_cases hgit : e0 = str ".git"
    · rw [if_pos hgit] at h
      exact parseFolderLoop_frame c x fs d rest conf merr pr h hnr
    · rw [if_neg hgit] at h
      cases hp : ParseSchemeManagerFolder c x fs conf e0 with
      | error p => rw [hp] at h; exact absurd h (by simp)
      | ok pr2 =>
        obtain ⟨conf2, r2⟩ := pr2
        have hfr := psmf_frame c x fs conf e0 _ hp
        rw [hp] at h
        cases r2 with
        | none =>
          simp only at h
          have ih := parseFolderLoop_frame c x fs d rest conf2 merr pr h hnr
          exact ⟨ih.1.trans (hfr.1 d hne), ih.2.trans (by rw [hfr.2.1])⟩
        | some e =>
          simp only at h
          have ih := parseFolderLoop_frame c x fs d rest _ _ pr h hnr
          refine ⟨ih.1.trans (hfr.1 d hne), ih.2.trans ?_⟩
          dsimp only
          rw [alookup_aupdate_ne _ _ (Ne.symm hne), hfr.2.1]

/-- In the `ParseFolder` loop, a visited folder whose signature
verification fails ends registered with status `InvalidSignature`,
`Valid=false` and index `idx`, and recorded in the disabled map with the
triggering error. -/
theorem parseFolderLoop_main (c : Crypto) (x : XmlDecoders) (fs : ConfFS)
    (d : Str) (db : Bytes) (idx : SchemeManagerIndex) (e0 : String)
    (hdesc : fs.files (d ++ str "/description.xml") = some db)
    (hidx : parseIndexFS fs d = (idx, none))
    (hvs : VerifySchemeManager c fs d idx = some e0) :
    ∀ (l : List Str) (conf : Configuration) (merr : Option SchemeManagerError) pr,
      parseFolderLoop c x fs conf merr l = .ok pr →
      d ∈ l → d ≠ str ".git" → l.Nodup →
      alookup pr.1.schemeManagers d =
        some (⟨d, [], .invalidSignature, false, idx⟩ : SchemeManager) ∧
      alookup pr.1.disabledSchemeManagers d = some ⟨d, .invalidSignature, e0⟩
  | [], _, _, _, _, hmem, _, _ => absurd hmem (List.not_mem_nil d)
  | e1 :: rest, conf, merr, pr, h, hmem, hgit, hnd => by
    have hnd0 : e1 ∉ rest := (List.nodup_cons.1 hnd).1
    have hndr : rest.Nodup := (List.nodup_cons.1 hnd).2
    rw [parseFolderLoop] at h
    by_cases he1 : e1 = d
    · subst he1
      rw [if_neg hgit] at h
      rw [psmf_invalidSignature c x fs conf e1 db idx e0 hdesc hidx hvs] at h
      simp only at h
      have hfr := parseFolderLoop_frame c x fs e1 rest _ _ pr h hnd0
      constructor
      · rw [hfr.1]
        dsimp only
        exact alookup_aupdate_self _ _ _
      · rw [hfr.2]
        dsimp only
        exact alookup_aupdate_self _ _ _
    · have hmr : d ∈ rest := by
        rcases List.mem_cons.1 hmem with he | hm
        · exact absurd he.symm he1
        · exact hm
      by_cases hg1 : e1 = str ".git"
      · rw [if_pos hg1] at h
        exact parseFolderLoop_main c x fs d db idx e0 hdesc hidx hvs rest conf merr pr
          h hmr hgit hndr
      · rw [if_neg hg1] at h
        cases hp : ParseSchemeManagerFolder c x fs conf e1 with
        | error p => rw [hp] at h; exact absurd h (by simp)
        | ok pr2 =>
          obtain ⟨conf2, r2⟩ := pr2
          rw [hp] at h
          cases r2 with
          | none =>
            simp only at h
            exact parseFolderLoop_main c x fs d db idx e0 hdesc hidx hvs rest conf2
              merr pr h hmr hgit hndr
          | some e =>
            simp only at h
            exact parseFolderLoop_main c x fs d db idx e0 hdesc hidx hvs rest _ _ pr
              h hmr hgit hndr

theorem filterOutIssuers_spec :
    ∀ (l : List (Str × Issuer)) (id : Str) (r : List (Str × Issuer)),
      filterOutIssuers l id = .ok r →
      ∀ e ∈ r, e ∈ l ∧ objectIdentifierParent e.1 ≠ .ok id
  | [], _, r, h => by
    rw [filterOutIssuers] at h
    injection h with h1; rw [← h1]
    intro e he; exact absurd he (List.not_mem_nil e)
  | (k, v) :: rest, id, r, h => by
    rw [filterOutIssuers] at h
    cases hp : objectIdentifierParent k with
    | error p => rw [hp] at h; exact absurd h (by simp)
    | ok smk =>
      rw [hp] at h
      cases hr : filterOutIssuers rest id with
      | error p => rw [hr] at h; exact absurd h (by simp)
      | ok r2 =>
        rw [hr] at h
        simp only at h
        injection h with h1
        intro e he
        rw [← h1] at he
        have ih := filterOutIssuers_spec rest id r2 hr
        by_cases hsm : smk = id
        · rw [if_pos hsm] at he
          exact ⟨List.mem_cons_of_mem _ (ih e he).1, (ih e he).2⟩
        · rw [if_neg hsm] at he
          rcases List.mem_cons.1 he with he2 | he2
          · subst he2
            refine ⟨List.mem_cons_self _ _, ?_⟩
            intro hcontra
            rw [hp] at hcontra
            injection hcontra with h2
            exact hsm h2
          · exact ⟨List.mem_cons_of_mem _ (ih e he2).1, (ih e he2).2⟩

theorem filterOutCredentialTypes_spec :
    ∀ (l : List (Str × CredentialType)) (id : Str) (r : List (Str × CredentialType)),
      filterOutCredentialTypes l id = .ok r →
      ∀ e ∈ r, e ∈ l ∧ credSchemeManagerKey e.1 ≠ .ok id
  | [], _, r, h => by
    rw [filterOutCredentialTypes] at h
    injection h with h1; rw [← h1]
    intro e he; exact absurd he (List.not_mem_nil e)
  | (k, v) :: rest, id, r, h => by
    rw [filterOutCredentialTypes] at h
    cases hp : credSchemeManagerKey k with
    | error p => rw [hp] at h; exact absurd h (by simp)
    | ok smk =>
      rw [hp] at h
      cases hr : filterOutCredentialTypes rest id with
      | error p => rw [hr] at h; exact absurd h (by simp)
      | ok r2 =>
        rw [hr] at h
        simp only at h
        injection h with h1
        intro e he
        rw [← h1] at he
        have ih := filterOutCredentialTypes_spec rest id r2 hr
        by_cases hsm : smk = id
        · rw [if_pos hsm] at he
          exact ⟨List.mem_cons_of_mem _ (ih e he).1, (ih e he).2⟩
        · rw [if_neg hsm] at he
          rcases List.mem_cons.1 he with he2 | he2
          · subst he2
            refine ⟨List.mem_cons_self _ _, ?_⟩
            intro hcontra
            rw [hp] at hcontra
            injection hcontra with h2
            exact hsm h2
          · exact ⟨List.mem_cons_of_mem _ (ih e he2).1, (ih e he2).2⟩

theorem filterOutPublicKeys_spec :
    ∀ (l : List (Str × List (Int × GabiPublicKey))) (id : Str)
      (r : List (Str × List (Int × GabiPublicKey))),
      filterOutPublicKeys l id = .ok r →
      ∀ e ∈ r, e ∈ l ∧ objectIdentifierParent e.1 ≠ .ok id
  | [], _, r, h => by
    rw [filterOutPublicKeys] at h
    injection h with h1; rw [← h1]
    intro e he; exact absurd he (List.not_mem_nil e)
  | (k, v) :: rest, id, r, h => by
    rw [filterOutPublicKeys] at h
    cases hp : objectIdentifierParent k with
    | error p => rw [hp] at h; exact absurd h (by simp)
    | ok smk =>
      rw [hp] at h
      cases hr : filterOutPublicKeys rest id with
      | error p => rw [hr] at h; exact absurd h (by simp)
      | ok r2 =>
        rw [hr] at h
        simp only at h
        injection h with h1
        intro e he
        rw [← h1] at he
        have ih := filterOutPublicKeys_spec rest id r2 hr
        by_cases hsm : smk = id
        · rw [if_pos hsm] at he
          exact ⟨List.mem_cons_of_mem _ (ih e he).1, (ih e he).2⟩
        · rw [if_neg hsm] at he
          rcases List.mem_cons.1 he with he2 | he2
          · subst he2
            refine ⟨List.mem_cons_self _ _, ?_⟩
            intro hcontra
            rw [hp] at hcontra
            injection hcontra with h2
            exact hsm h2
          · exact ⟨List.mem_cons_of_mem _ (ih e he2).1, (ih e he2).2⟩

/-- `RemoveSchemeManager` keeps only entries that do not fall under the
removed manager. -/
theorem removeSchemeManager_spec (conf : Configuration) (id : Str)
    (conf2 : Configuration) (h : RemoveSchemeManager conf id = .ok conf2) :
    (∀ e ∈ conf2.schemeManagers, e ∈ conf.schemeManagers ∧ e.1 ≠ id) ∧
    (∀ e ∈ conf2.issuers, e ∈ conf.issuers ∧ objectIdentifierParent e.1 ≠ .ok id) ∧
    (∀ e ∈ conf2.credentialTypes, e ∈ conf.credentialTypes ∧
      credSchemeManagerKey e.1 ≠ .ok id) ∧
    (∀ e ∈ conf2.publicKeys, e ∈ conf.publicKeys ∧
      objectIdentifierParent e.1 ≠ .ok id) := by
  unfold RemoveSchemeManager at h
  cases hc : filterOutCredentialTypes conf.credentialTypes id with
  | error p => rw [hc] at h; exact absurd h (by simp)
  | ok creds =>
    rw [hc] at h
    cases hi : filterOutIssuers conf.issuers id with
    | error p => rw [hi] at h; exact absurd h (by simp)
    | ok isss =>
      rw [hi] at h
      cases hk : filterOutPublicKeys conf.publicKeys id with
      | error p => rw [hk] at h; exact absurd h (by simp)
      | ok pks =>
        rw [hk] at h
        simp only at h
        injection h with h1
        rw [← h1]
        exact ⟨fun e he => mem_aremove he,
               filterOutIssuers_spec _ _ _ hi,
               filterOutCredentialTypes_spec _ _ _ hc,
               filterOutPublicKeys_spec _ _ _ hk⟩

/-- The prune loop only ever removes entries. -/
theorem pruneLoop_subset :
    ∀ (l : List (Str × SchemeManager)) (conf pruned : Configuration),
      pruneLoop conf l = .ok pruned →
      (∀ e ∈ pruned.schemeManagers, e ∈ conf.schemeManagers) ∧
      (∀ e ∈ pruned.issuers, e ∈ conf.issuers) ∧
      (∀ e ∈ pruned.credentialTypes, e ∈ conf.credentialTypes) ∧
      (∀ e ∈ pruned.publicKeys, e ∈ conf.publicKeys)
  | [], conf, pruned, h => by
    rw [pruneLoop] at h
    injection h with h1; rw [← h1]
    exact ⟨fun e he => he, fun e he => he, fun e he => he, fun e he => he⟩
  | (k0, m0) :: rest, conf, pruned, h => by
    rw [pruneLoop] at h
    cases hm0 : m0.valid with
    | true =>
      rw [hm0] at h
      simp only [Bool.not_true, Bool.false_eq_true, if_false] at h
      exact pruneLoop_subset rest conf pruned h
    | false =>
      rw [hm0] at h
      simp only [Bool.not_false, if_true] at h
      cases hrm : RemoveSchemeManager conf m0.id with
      | error p => rw [hrm] at h; exact absurd h (by simp)
      | ok conf2 =>
        rw [hrm] at h
        have hspec := removeSchemeManager_spec conf m0.id conf2 hrm
        have ih := pruneLoop_subset rest conf2 pruned h
        exact ⟨fun e he => (hspec.1 e (ih.1 e he)).1,
               fun e he => (hspec.2.1 e (ih.2.1 e he)).1,
               fun e he => (hspec.2.2.1 e (ih.2.2.1 e he)).1,
               fun e he => (hspec.2.2.2 e (ih.2.2.2 e he)).1⟩

/-- A manager entry in the pruned list whose `Valid` is false is removed by
the prune loop together with everything keyed under it. -/
theorem pruneLoop_gone (d : Str) (m : SchemeManager)
    (hmv : m.valid = false) (hmid : m.id = d) :
    ∀ (l : List (Str × SchemeManager)) (conf pruned : Configuration),
      pruneLoop conf l = .ok pruned → (d, m) ∈ l →
      alookup pruned.schemeManagers d = none ∧
      (∀ e ∈ pruned.issuers, objectIdentifierParent e.1 ≠ .ok d) ∧
      (∀ e ∈ pruned.credentialTypes, credSchemeManagerKey e.1 ≠ .ok d) ∧
      (∀ e ∈ pruned.publicKeys, objectIdentifierParent e.1 ≠ .ok d)
  | [], _, _, _, hmem => absurd hmem (List.not_mem_nil _)
  | (k0, m0) :: rest, conf, pruned, h, hmem => by
    rw [pruneLoop] at h
    rcases List.mem_cons.1 hmem with he | hmr
    · obtain ⟨he1, he2⟩ := Prod.mk.injEq .. ▸ he
      subst he1; subst he2
      rw [hmv] at h
      simp only [Bool.not_false, if_true] at h
      rw [hmid] at h
      cases hrm : RemoveSchemeManager conf d with
      | error p => rw [hrm] at h; exact absurd h (by simp)
      | ok conf2 =>
        rw [hrm] at h
        have hspec := removeSchemeManager_spec conf d conf2 hrm
        have hsub := pruneLoop_subset rest conf2 pruned h
        refine ⟨?_, ?_, ?_, ?_⟩
        · rw [alookup_eq_none_iff]
          intro e he
          exact (hspec.1 e (hsub.1 e he)).2
        · intro e he
          exact (hspec.2.1 e (hsub.2.1 e he)).2
        · intro e he
          exact (hspec.2.2.1 e (hsub.2.2.1 e he)).2
        · intro e he
          exact (hspec.2.2.2 e (hsub.2.2.2 e he)).2
    · cases hm0 : m0.valid with
      | true =>
        rw [hm0] at h
        simp only [Bool.not_true, Bool.false_eq_true, if_false] at h
        exact pruneLoop_gone d m hmv hmid rest conf pruned h hmr
      | false =>
        rw [hm0] at h
        simp only [Bool.not_false, if_true] at h
        cases hrm : RemoveSchemeManager conf m0.id with
        | error p => rw [hrm] at h; exact absurd h (by simp)
        | ok conf2 =>
          rw [hrm] at h
          exact pruneLoop_gone d m hmv hmid rest conf2 pruned h hmr

/-- Claim C3: a scheme-manager folder whose index-signature verification
fails during `ParseFolder` ends with `Status=InvalidSignature`, remains in
the scheme-manager map with `Valid=false`, is recorded in
`DisabledSchemeManagers` with the triggering error, and a subsequent
`Prune` removes its entry together with every issuer, credential type, and
cached public key keyed under it. -/
theorem claimC3_invalid_signature_disables (c : Crypto) (x : XmlDecoders)
    (fs : ConfFS) (conf : Configuration) (d : Str) (db : Bytes)
    (idx : SchemeManagerIndex) (conf2 : Configuration)
    (merr : Option SchemeManagerError) (pruned : Configuration)
    (hmem : d ∈ fs.subdirs [])
    (hgit : d ≠ str ".git")
    (hnd : (fs.subdirs []).Nodup)
    (hdesc : fs.files (d ++ str "/description.xml") = some db)
    (hidx : parseIndexFS fs d = (idx, none))
    (hsig : (VerifySignature c (sigFilesAt fs d)).1 = false ∨
            (VerifySignature c (sigFilesAt fs d)).2.isSome)
    (hpf : ParseFolder c x fs conf = .ok (conf2, merr))
    (hpr : Prune conf2 = .ok pruned) :
    ∃ e0, VerifySchemeManager c fs d idx = some e0 ∧
      alookup conf2.schemeManagers d =
        some (⟨d, [], .invalidSignature, false, idx⟩ : SchemeManager) ∧
      alookup conf2.disabledSchemeManagers d = some ⟨d, .invalidSignature, e0⟩ ∧
      alookup pruned.schemeManagers d = none ∧
      (∀ e ∈ pruned.issuers, objectIdentifierParent e.1 ≠ .ok d) ∧
      (∀ e ∈ pruned.credentialTypes, credSchemeManagerKey e.1 ≠ .ok d) ∧
      (∀ e ∈ pruned.publicKeys, objectIdentifierParent e.1 ≠ .ok d) := by
  obtain ⟨e0, hvs⟩ := verifySchemeManager_fails c fs d idx hsig
  unfold ParseFolder at hpf
  cases hloop : parseFolderLoop c x fs (clearConf conf) none (fs.subdirs []) with
  | error p => rw [hloop] at hpf; exact absurd hpf (by simp)
  | ok pr2 =>
    obtain ⟨confL, merrL⟩ := pr2
    rw [hloop] at hpf
    simp only at hpf
    injection hpf with hpair
    injection hpair with hpf1 hpf2
    have hmain := parseFolderLoop_main c x fs d db idx e0 hdesc hidx hvs
      (fs.subdirs []) (clearConf conf) none _ hloop hmem hgit hnd
    have hsm : alookup conf2.schemeManagers d =
        some (⟨d, [], .invalidSignature, false, idx⟩ : SchemeManager) := by
      rw [← hpf1]; exact hmain.1
    have hdis : alookup conf2.disabledSchemeManagers d =
        some ⟨d, .invalidSignature, e0⟩ := by
      rw [← hpf1]; exact hmain.2
    have hmem2 : (d, (⟨d, [], .invalidSignature, false, idx⟩ : SchemeManager)) ∈
        conf2.schemeManagers := alookup_mem hsm
    have hgone := pruneLoop_gone d _ rfl rfl conf2.schemeManagers conf2 pruned hpr hmem2
    exact ⟨e0, hvs, hsm, hdis, hgone.1, hgone.2.1, hgone.2.2.1, hgone.2.2.2⟩

/-- Witness for C3: one manager folder `m` whose `pk.pem` holds no PEM
block, so signature verification fails; after `ParseFolder` it is disabled
with `InvalidSignature`, and `Prune` removes it. -/
theorem claimC3_witness :
    ∃ e0, VerifySchemeManager badPemCrypto c3FS (str "m") c3Idx = some e0 ∧
      alookup c3Conf2.schemeManagers (str "m") =
        some (⟨str "m", [], .invalidSignature, false, c3Idx⟩ : SchemeManager) ∧
      alookup c3Conf2.disabledSchemeManagers (str "m") =
        some ⟨str "m", .invalidSignature, e0⟩ ∧
      alookup c3Pruned.schemeManagers (str "m") = none ∧
      (∀ e ∈ c3Pruned.issuers, objectIdentifierParent e.1 ≠ .ok (str "m")) ∧
      (∀ e ∈ c3Pruned.credentialTypes, credSchemeManagerKey e.1 ≠ .ok (str "m")) ∧
      (∀ e ∈ c3Pruned.publicKeys, objectIdentifierParent e.1 ≠ .ok (str "m")) :=
  claimC3_invalid_signature_disables badPemCrypto noXml c3FS emptyConfiguration
    (str "m") [0] c3Idx c3Conf2 (some ⟨str "m", .invalidSignature, c3Msg⟩) c3Pruned
    (by decide) (by decide) (by decide) rfl rfl (Or.inl rfl) rfl rfl

/-! ## Claim C8 -/

/-- Claim C8: when the issuer/credential-type pass fails partway,
`ParseSchemeManagerFolder` ends the manager in `ContentParsingError`
(registered, `Valid=false`), and the issuers and credential types
registered before the failure point remain registered: the final maps are
exactly those produced by the partial issuer iteration — no rollback. -/
theorem claimC8_partial_ingestion (c : Crypto) (x : XmlDecoders) (fs : ConfFS)
    (conf : Configuration) (d : Str) (db : Bytes) (idx : SchemeManagerIndex)
    (desc : SchemeManagerDesc) (conf2 : Configuration) (e : String)
    (hdesc : fs.files (d ++ str "/description.xml") = some db)
    (hidx : parseIndexFS fs d = (idx, none))
    (hsig : VerifySchemeManager c fs d idx = none)
    (hmgr : pathToDescription c fs x.schemeManager idx (d ++ str "/description.xml") =
      .ok (some desc))
    (hver : 7 ≤ desc.xmlVersion)
    (hiss : iterateSubfolders (parseIssuersHandler c x fs idx d)
        { conf with
          schemeManagers :=
            aupdate (aupdate conf.schemeManagers d
                (⟨d, [], .unprocessed, false, []⟩ : SchemeManager)) d
              (⟨d, [], .unprocessed, false, idx⟩ : SchemeManager) }
        (fs.subdirs d) = .ok (conf2, some e)) :
    ∃ conf3, ParseSchemeManagerFolder c x fs conf d =
        .ok (conf3, some ⟨d, .contentParsingError, e⟩) ∧
      conf3.issuers = conf2.issuers ∧
      conf3.credentialTypes = conf2.credentialTypes ∧
      alookup conf3.schemeManagers d =
        some (⟨d, [], .contentParsingError, false, idx⟩ : SchemeManager) ∧
      (⟨d, [], .contentParsingError, false, idx⟩ : SchemeManager).valid = false := by
  have hnver : ¬(desc.xmlVersion < 7) := by omega
  refine ⟨{ conf2 with
            schemeManagers := aupdate conf2.schemeManagers d
              (⟨d, [], .contentParsingError, false, idx⟩ : SchemeManager) },
          ?_, rfl, rfl, alookup_aupdate_self _ _ _, rfl⟩
  simp only [ParseSchemeManagerFolder, NewSchemeManager, hdesc, hidx, hsig, hmgr,
    hiss, hnver, Option.isNone_some, Bool.false_eq_true, if_false, if_neg hnver]

/-- Witness for C8: manager `m` is well-signed and parses through its own
description; issuer `i1` (version 4) is ingested, issuer `i2` (version 3)
fails; the manager ends in `ContentParsingError` with `i1` still
registered. -/
theorem claimC8_witness :
    ∃ conf3, ParseSchemeManagerFolder idCrypto c8Xml c8FS emptyConfiguration (str "m") =
        .ok (conf3, some ⟨str "m", .contentParsingError, "Unsupported issuer description"⟩) ∧
      conf3.issuers = c8Conf2.issuers ∧
      conf3.credentialTypes = c8Conf2.credentialTypes ∧
      alookup conf3.schemeManagers (str "m") =
        some (⟨str "m", [], .contentParsingError, false, c8Index⟩ : SchemeManager) ∧
      (⟨str "m", [], .contentParsingError, false, c8Index⟩ : SchemeManager).valid = false :=
  claimC8_partial_ingestion idCrypto c8Xml c8FS emptyConfiguration (str "m") [0]
    c8Index ⟨7⟩ c8Conf2 "Unsupported issuer description"
    rfl rfl rfl rfl (by decide) rfl

end Irmago
